import Mathlib

/-!
# aruba_exporter: the CLI report parsers of `interfaces/parser.go`

A shallow embedding of `interfaceCollector.Parse` (port-counter report) and
`interfaceCollector.ParseVlans` (vlan-traffic report), followed by theorems about them.

The embedding has these layers:

* the regular expressions of the source, transcribed item by item, with a backtracking
  matcher that follows the leftmost-first, greedy semantics of Go's `regexp` package;
* the compilation of a pattern text, which fails on an escape that the syntax does not
  define, and the panic of `regexp.MustCompile` on such a text;
* `strings.Split(output, "\n")`;
* the line loop of `ParseVlans`, as a fold of a step function over the lines;
* the call of `Parse`, which for the supported kind ends at line 29 of the source, where
  `regexp.MustCompile` panics on the escape `\T`, before any line of the text is read.

Texts are Lean strings (sequences of Unicode code points); Go strings that are not valid
UTF-8 are outside the model.
-/

namespace ArubaExporter

/-! ## Character classes of Go's regexp syntax -/

/-- Class `\s`, which is `[\t\n\f\r ]` in Go's regexp syntax. -/
def isSpace (c : Char) : Bool :=
  c.toNat = 9 || c.toNat = 10 || c.toNat = 12 || c.toNat = 13 || c.toNat = 32

/-- Class `\d`, which is `[0-9]` in Go's regexp syntax. -/
def isDigit (c : Char) : Bool :=
  decide (48 ≤ c.toNat) && decide (c.toNat ≤ 57)

/-- Class `.`: every character except the line feed. -/
def isAny (c : Char) : Bool :=
  !(c.toNat = 10)

/-- The bracket class of `deviceNameRegexp`: ASCII letters, digits, slash and hyphen. -/
def isNameChar (c : Char) : Bool :=
  (decide (97 ≤ c.toNat) && decide (c.toNat ≤ 122))
    || (decide (65 ≤ c.toNat) && decide (c.toNat ≤ 90))
    || (decide (48 ≤ c.toNat) && decide (c.toNat ≤ 57))
    || c.toNat = 47 || c.toNat = 45

/-! ## Regular expressions -/

/-- One item of a pattern. Every pattern of `parser.go` is a sequence of such items. -/
inductive Item where
  /-- Literal text. -/
  | lit (s : String)
  /-- Greedy `c+` over a character class. -/
  | plus (p : Char → Bool)
  /-- Greedy `c*` over a character class. -/
  | star (p : Char → Bool)
  /-- Greedy `c?` for one character. -/
  | opt (c : Char)
  /-- Alternation `a|b` of two literals, `a` preferred. -/
  | alt (a b : String)
  /-- Opening parenthesis of a capture group. -/
  | gopen
  /-- Closing parenthesis of a capture group. -/
  | gclose
  /-- End of text `$`. -/
  | eol

/-- A pattern: `anchored` says whether it starts with `^`; `items` is the rest. -/
structure Regexp where
  anchored : Bool
  items : List Item

/-- Remove the literal `l` from the front of `s`, if it is there. -/
def stripLit : List Char → List Char → Option (List Char)
  | [], s => some s
  | _ :: _, [] => none
  | a :: l, c :: s => if a = c then stripLit l s else none

/-- Greedy repetition of a character class followed by the continuation `k`: the longest
run is tried first, and one character at a time is given back when `k` fails. -/
def many {α : Type} (p : Char → Bool) (k : List Char → Option α) : List Char → Option α
  | [] => k []
  | c :: cs =>
    if p c then
      match many p k cs with
      | some r => some r
      | none => k (c :: cs)
    else k (c :: cs)

/-- The text consumed between position `mark` and the later position `s` of one input. -/
def consumed (mark s : List Char) : String :=
  String.mk (mark.take (mark.length - s.length))

/-- Backtracking match of a sequence of items at the front of `s`.
`start` is the input at the position where the match began, `mark` the input at the latest
opening parenthesis, `caps` the groups closed so far. The result is Go's submatch slice:
the whole match first, then the groups in order. -/
def matchItems (start : List Char) :
    List Item → List Char → List Char → List String → Option (List String)
  | [], s, _, caps => some (consumed start s :: caps)
  | Item.lit l :: r, s, mark, caps =>
    match stripLit l.data s with
    | some s1 => matchItems start r s1 mark caps
    | none => none
  | Item.plus p :: r, s, mark, caps =>
    match s with
    | [] => none
    | c :: cs => if p c then many p (fun s1 => matchItems start r s1 mark caps) cs else none
  | Item.star p :: r, s, mark, caps =>
    many p (fun s1 => matchItems start r s1 mark caps) s
  | Item.opt c :: r, s, mark, caps =>
    match s with
    | [] => matchItems start r [] mark caps
    | d :: ds =>
      if d = c then
        match matchItems start r ds mark caps with
        | some m => some m
        | none => matchItems start r (d :: ds) mark caps
      else matchItems start r (d :: ds) mark caps
  | Item.alt a b :: r, s, mark, caps =>
    match (match stripLit a.data s with
           | some s1 => matchItems start r s1 mark caps
           | none => none) with
    | some m => some m
    | none =>
      match stripLit b.data s with
      | some s1 => matchItems start r s1 mark caps
      | none => none
  | Item.gopen :: r, s, _, caps => matchItems start r s s caps
  | Item.gclose :: r, s, mark, caps => matchItems start r s mark (caps ++ [consumed mark s])
  | Item.eol :: r, s, mark, caps =>
    match s with
    | [] => matchItems start r [] mark caps
    | _ :: _ => none

/-- Leftmost match of an unanchored pattern: the first start position, from the left, at
which the items match. -/
def search (items : List Item) : List Char → Option (List String)
  | [] => matchItems [] items [] [] []
  | c :: cs =>
    match matchItems (c :: cs) items (c :: cs) (c :: cs) [] with
    | some m => some m
    | none => search items cs

/-- `(*Regexp).FindStringSubmatch`: the submatch slice of the leftmost match, or `none`
(Go's `nil`) when the pattern matches nowhere. -/
def FindStringSubmatch (re : Regexp) (s : String) : Option (List String) :=
  if re.anchored then matchItems s.data re.items s.data s.data [] else search re.items s.data

/-- `strings.Split(s, "\n")` on the characters of `s`. The result is never empty. -/
def splitChars : List Char → List (List Char)
  | [] => [[]]
  | c :: cs =>
    if c.toNat = 10 then [] :: splitChars cs
    else
      match splitChars cs with
      | [] => [[c]]
      | l :: ls => (c :: l) :: ls

/-- `strings.Split(output, "\n")`. -/
def Split (output : String) : List String :=
  (splitChars output.data).map String.mk

/-! ## Pattern text and its compilation -/

/-- What a Go call does: it returns a value, or it panics with a message. -/
inductive Outcome (α : Type) where
  | returns (v : α)
  | panics (msg : String)

/-- ASCII letters and digits (`isalnum` of the package `regexp/syntax`). -/
def isAlnum (c : Char) : Bool :=
  (decide (48 ≤ c.toNat) && decide (c.toNat ≤ 57))
    || (decide (65 ≤ c.toNat) && decide (c.toNat ≤ 90))
    || (decide (97 ≤ c.toNat) && decide (c.toNat ≤ 122))

/-- The character that an ordinary single-character escape `\c` stands for (`parseEscape`
of `regexp/syntax`): an escaped ASCII character that is neither a letter nor a digit stands
for itself, and of the letters only `a f n r t v` are defined, as control characters.
`none` is the error `invalid escape sequence`. The escapes with another meaning (the
classes `\d \s \w` and their complements, the assertions `\A \b \B \z`, `\Q`, `\p`, the
octal and hexadecimal forms) are not ordinary escapes and are outside this function. -/
def escapeLiteral (c : Char) : Option Char :=
  if c.toNat < 128 && !isAlnum c then some c
  else if c = 'a' then some (Char.ofNat 7)
  else if c = 'f' then some (Char.ofNat 12)
  else if c = 'n' then some (Char.ofNat 10)
  else if c = 'r' then some (Char.ofNat 13)
  else if c = 't' then some (Char.ofNat 9)
  else if c = 'v' then some (Char.ofNat 11)
  else none

/-- One piece of the text of a pattern, before it is compiled: an item that the syntax
accepts as it stands, or an ordinary single-character escape `\c`. -/
inductive Piece where
  | item (it : Item)
  | esc (c : Char)

/-- A pattern as the source writes it: its text, and the text split into pieces (`anchored`
says whether it starts with `^`). -/
structure Pattern where
  text : String
  anchored : Bool
  pieces : List Piece

/-- The error of `regexp/syntax` for an escape that it does not define. -/
def invalidEscape (c : Char) : String :=
  "error parsing regexp: invalid escape sequence: `\\" ++ String.singleton c ++ "`"

/-- Compile the pieces from left to right; the first escape that the syntax does not define
is the error. -/
def compilePieces : List Piece → Except String (List Item)
  | [] => Except.ok []
  | Piece.item it :: ps =>
    match compilePieces ps with
    | Except.ok its => Except.ok (it :: its)
    | Except.error e => Except.error e
  | Piece.esc c :: ps =>
    match escapeLiteral c with
    | none => Except.error (invalidEscape c)
    | some d =>
      match compilePieces ps with
      | Except.ok its => Except.ok (Item.lit (String.singleton d) :: its)
      | Except.error e => Except.error e

/-- `regexp.Compile`: the compiled pattern, or the error of the parser. -/
def Compile (p : Pattern) : Except String Regexp :=
  match compilePieces p.pieces with
  | Except.ok its => Except.ok ⟨p.anchored, its⟩
  | Except.error e => Except.error e

/-- The message with which `regexp.MustCompile` panics on a pattern that `Compile` rejects
with the error `e`. -/
def panicMessage (p : Pattern) (e : String) : String :=
  "regexp: Compile(`" ++ p.text ++ "`): " ++ e

/-- `regexp.MustCompile`: like `Compile`, but it panics when the pattern cannot be parsed. -/
def MustCompile (p : Pattern) : Outcome Regexp :=
  match Compile p with
  | Except.ok re => Outcome.returns re
  | Except.error e => Outcome.panics (panicMessage p e)

/-! ## The patterns of `Parse` -/

-- Lines 22 to 28 of the source pass the seven patterns below to `regexp.MustCompile`. The
-- syntax accepts each of them, so they are given in compiled form.

/-- Pattern `^\s+Status and Counters - Port Counters for port (\d+\/?\d*)\s*$`. -/
def newIfRegexp : Regexp :=
  ⟨true, [Item.plus isSpace, Item.lit "Status and Counters - Port Counters for port ",
    Item.gopen, Item.plus isDigit, Item.opt '/', Item.star isDigit, Item.gclose,
    Item.star isSpace, Item.eol]⟩

/-- Pattern `^\s+Name\s+:\s+(.*)$`. -/
def descRegexp : Regexp :=
  ⟨true, [Item.plus isSpace, Item.lit "Name", Item.plus isSpace, Item.lit ":",
    Item.plus isSpace, Item.gopen, Item.star isAny, Item.gclose, Item.eol]⟩

/-- Pattern `^\s+MAC Address\s+:\s+(.*)$`. -/
def macRegexp : Regexp :=
  ⟨true, [Item.plus isSpace, Item.lit "MAC Address", Item.plus isSpace, Item.lit ":",
    Item.plus isSpace, Item.gopen, Item.star isAny, Item.gclose, Item.eol]⟩

/-- Pattern `^\s+Link Status\s+:\s+(Up|Down)\s*$`. -/
def linkStatusRegexp : Regexp :=
  ⟨true, [Item.plus isSpace, Item.lit "Link Status", Item.plus isSpace, Item.lit ":",
    Item.plus isSpace, Item.gopen, Item.alt "Up" "Down", Item.gclose,
    Item.star isSpace, Item.eol]⟩

/-- Pattern `^\s+Port Enabled\s+:\s+(Yes|No)\s*$`. -/
def portEnabledRegexp : Regexp :=
  ⟨true, [Item.plus isSpace, Item.lit "Port Enabled", Item.plus isSpace, Item.lit ":",
    Item.plus isSpace, Item.gopen, Item.alt "Yes" "No", Item.gclose,
    Item.star isSpace, Item.eol]⟩

/-- Pattern `\s+Bytes Rx\s+:\s+(\d+)\s+Bytes Tx\s+:\s+(\d+)\s*$`; it has no `^`. -/
def bytesRegexp : Regexp :=
  ⟨false, [Item.plus isSpace, Item.lit "Bytes Rx", Item.plus isSpace, Item.lit ":",
    Item.plus isSpace, Item.gopen, Item.plus isDigit, Item.gclose,
    Item.plus isSpace, Item.lit "Bytes Tx", Item.plus isSpace, Item.lit ":",
    Item.plus isSpace, Item.gopen, Item.plus isDigit, Item.gclose,
    Item.star isSpace, Item.eol]⟩

/-- Pattern `\s+Unicast Rx\s+:\s+(\d+)\s+Unicast Tx\s+:\s+(\d+)\s*$`; it has no `^`. -/
def unicastRegexp : Regexp :=
  ⟨false, [Item.plus isSpace, Item.lit "Unicast Rx", Item.plus isSpace, Item.lit ":",
    Item.plus isSpace, Item.gopen, Item.plus isDigit, Item.gclose,
    Item.plus isSpace, Item.lit "Unicast Tx", Item.plus isSpace, Item.lit ":",
    Item.plus isSpace, Item.gopen, Item.plus isDigit, Item.gclose,
    Item.star isSpace, Item.eol]⟩

/-- The pattern text of line 29,
`\s+Bcast\/Mcast Rx\s+:\s+(\d+)\s+Bcast\/Mcast R\Tx\s+:\s+(\d+)\s*$`. It has no `^`, it
escapes the two slashes, and it writes `R\Tx` where the other counter patterns have `Tx`.
Line 30 passes the same text to `regexp.MustCompile` once more, for `RxDrops`. -/
def BandMcastPattern : Pattern :=
  ⟨"\\s+Bcast\\/Mcast Rx\\s+:\\s+(\\d+)\\s+Bcast\\/Mcast R\\Tx\\s+:\\s+(\\d+)\\s*$", false,
    [Piece.item (Item.plus isSpace), Piece.item (Item.lit "Bcast"), Piece.esc '/',
      Piece.item (Item.lit "Mcast Rx"), Piece.item (Item.plus isSpace),
      Piece.item (Item.lit ":"), Piece.item (Item.plus isSpace), Piece.item Item.gopen,
      Piece.item (Item.plus isDigit), Piece.item Item.gclose,
      Piece.item (Item.plus isSpace), Piece.item (Item.lit "Bcast"), Piece.esc '/',
      Piece.item (Item.lit "Mcast R"), Piece.esc 'T', Piece.item (Item.lit "x"),
      Piece.item (Item.plus isSpace), Piece.item (Item.lit ":"),
      Piece.item (Item.plus isSpace), Piece.item Item.gopen,
      Piece.item (Item.plus isDigit), Piece.item Item.gclose,
      Piece.item (Item.star isSpace), Piece.item Item.eol]⟩

/-- The value of the right-hand side of line 29,
`BandMcastRegexp := regexp.MustCompile(...)`. -/
def BandMcastRegexp : Outcome Regexp := MustCompile BandMcastPattern

/-! ## The patterns of `ParseVlans` -/

-- `ParseVlans` passes its three patterns to `regexp.Compile` and drops the error; the
-- syntax accepts each of them, so they are given in compiled form.

-- source pattern: ^([a-zA-Z0-9\/-]+\.[a-zA-Z0-9\/-]+) \(:?\d+\).*$
/-- Pattern `^(C+\.C+) \(:?\d+\).*$`, where `C` is the bracket class of the source: ASCII
letters, digits, slash and hyphen (`isNameChar`). -/
def deviceNameRegexp : Regexp :=
  ⟨true, [Item.gopen, Item.plus isNameChar, Item.lit ".", Item.plus isNameChar, Item.gclose,
    Item.lit " (", Item.opt ':', Item.plus isDigit, Item.lit ")", Item.star isAny,
    Item.eol]⟩

/-- Pattern `^\s+Total \d+ packets, (\d+) bytes input.*$`. -/
def inputBytesRegexp : Regexp :=
  ⟨true, [Item.plus isSpace, Item.lit "Total ", Item.plus isDigit, Item.lit " packets, ",
    Item.gopen, Item.plus isDigit, Item.gclose, Item.lit " bytes input", Item.star isAny,
    Item.eol]⟩

/-- Pattern `^\s+Total \d+ packets, (\d+) bytes output.*$`. -/
def outputBytesRegexp : Regexp :=
  ⟨true, [Item.plus isSpace, Item.lit "Total ", Item.plus isDigit, Item.lit " packets, ",
    Item.gopen, Item.plus isDigit, Item.gclose, Item.lit " bytes output", Item.star isAny,
    Item.eol]⟩

/-! ## Records -/

/-- Modelled from the spec: the declaration of the struct `Interface` is not among the
sources. Its fields are the ones `parser.go` assigns, the texts as strings and the counters
in the result type `F` of `util.Str2float64`, and the three counters `rx_drops`,
`tx_drops`, `rx_errors` that the data model of the spec lists besides them. The default of
a field is the value it has in `Interface{}`: the empty string for a text and `0 : F` for a
counter, so `({} : Interface F)` is `Interface{}`. The type `F` and its default are a
parameter: with `Counter` below the default is the absent counter of the data model, with
a type of plain numbers it is the number 0. Equality of records stands for Go's `==`. -/
structure Interface (F : Type) [Zero F] where
  Name : String := ""
  Description : String := ""
  MacAddress : String := ""
  linkStatus : String := ""
  portEnabled : String := ""
  RxBytes : F := 0
  TxBytes : F := 0
  RxUnicast : F := 0
  TxUnicast : F := 0
  RxBandMcast : F := 0
  TxBandMcast : F := 0
  RxDrops : F := 0
  TxDrops : F := 0
  RxErrors : F := 0
  InputBytes : F := 0
  OutputBytes : F := 0
  deriving DecidableEq

/-- What `parser.go` takes from the packages `rpc` and `util`, which are not among the
sources: the constant `rpc.ArubaSwitch` and the function `util.Str2float64`. -/
structure Imports (F : Type) where
  ArubaSwitch : String
  Str2float64 : String → F

/-- Element `i` of a submatch slice (`matches[i]` in the source). -/
def sub (m : List String) (i : Nat) : String := m.getD i ""

/-! ## The line loops -/

section Loops

variable {F : Type} [Zero F] [DecidableEq F]

/-- `interfaceCollector.Parse`. The kind test of line 18 returns Go's `nil` slice and the
error. For the supported kind, lines 22 to 28 compile the seven patterns `newIfRegexp` to
`unicastRegexp`; line 29 evaluates `BandMcastRegexp`, and a panic there ends the call. The
statements after line 29 are the parameter `after`, a function of the compiled pattern and
of the text: as the source writes them they are not valid Go (lines 31 and 32 are bare
identifiers, and line 42 reads `matches`, which line 37 does not bind), and no call reaches
them (`Parse_panics`). -/
def Parse (im : Imports F)
    (after : Regexp → String → Outcome (List (Interface F) × Option String))
    (ostype output : String) : Outcome (List (Interface F) × Option String) :=
  if ostype ≠ im.ArubaSwitch then
    Outcome.returns ([], some ("'show interface' is not implemented for " ++ ostype))
  else
    match BandMcastRegexp with
    | Outcome.panics msg => Outcome.panics msg
    | Outcome.returns re => after re output

/-- The first statement of the loop body of `ParseVlans`: a boundary line emits the
record in progress, unless it is `Interface{}`, and starts a new one. There is no
`continue`: the line goes on to `vlanFields`. -/
def vlanBoundary (st : List (Interface F) × Interface F) (line : String) :
    List (Interface F) × Interface F :=
  match FindStringSubmatch deviceNameRegexp line with
  | some m => (if st.2 ≠ {} then st.1 ++ [st.2] else st.1, { Name := sub m 1 })
  | none => st

/-- The rest of the loop body of `ParseVlans`: nothing is read while the record in
progress is `Interface{}`; otherwise the input rule is tried, and else the output rule. -/
def vlanFields (im : Imports F) (st : List (Interface F) × Interface F) (line : String) :
    List (Interface F) × Interface F :=
  if st.2 = {} then st
  else
    match FindStringSubmatch inputBytesRegexp line with
    | some m => (st.1, { st.2 with InputBytes := im.Str2float64 (sub m 1) })
    | none =>
    match FindStringSubmatch outputBytesRegexp line with
    | some m => (st.1, { st.2 with OutputBytes := im.Str2float64 (sub m 1) })
    | none => st

/-- One iteration of the loop of `ParseVlans`. -/
def vlanStep (im : Imports F) (st : List (Interface F) × Interface F) (line : String) :
    List (Interface F) × Interface F :=
  vlanFields im (vlanBoundary st line) line

/-- `interfaceCollector.ParseVlans`: the pair of Go's two results, the records and the error
(`none` is Go's `nil` error; the `nil` slice is the empty list). Its three patterns
compile, so it has no panic of its own. -/
def ParseVlans (im : Imports F) (ostype output : String) :
    List (Interface F) × Option String :=
  if ostype ≠ im.ArubaSwitch then
    ([], some ("'show vlans' is not implemented for " ++ ostype))
  else
    let st := (Split output).foldl (vlanStep im) ([], {})
    (st.1 ++ [st.2], none)

end Loops

/-! ## Concrete instances of the imports -/

/-- Value of a string of decimal digits. -/
def decimalValue (s : String) : Nat :=
  s.data.foldl (fun n c => 10 * n + (c.toNat - 48)) 0

/-- Modelled from the spec: `util.Str2float64` and `rpc.ArubaSwitch` are not among the
sources. The spec says that captured digit strings convert to floating point with no loss
of whole-number precision up to at least 2^53, so on the digit strings of the examples
below the conversion is the decimal value; the counters of this instance are natural
numbers, with the default 0. The spec does not give the text of the constant; the instance
takes "ArubaSwitch". The general theorems hold for every instance. -/
def goImports : Imports Nat :=
  ⟨"ArubaSwitch", decimalValue⟩

/-- Modelled from the spec: the declaration of the counter fields of `Interface` is not
among the sources, and the data model of the spec says that a counter is "default absent
(not zero) until a matching line is seen". A counter of this instance is absent or holds a
value, and the default of a counter field is `absent`. -/
inductive Counter where
  | absent
  | value (n : Nat)
  deriving DecidableEq

instance : Zero Counter := ⟨Counter.absent⟩

/-- Modelled from the spec: the imports for the counters of the data model, which are
absent until a line is read: `util.Str2float64` gives the value of the digits. -/
def specImports : Imports Counter :=
  ⟨"ArubaSwitch", fun s => Counter.value (decimalValue s)⟩

/-- The records that a call hands to its caller: those of the returned pair, and none when
the call panics. -/
def returned {R : Type} (o : Outcome (List R × Option String)) : List R :=
  match o with
  | Outcome.returns v => v.1
  | Outcome.panics _ => []

/-! ## Blocks of lines and the shape of a line loop -/

/-- The lines of a sequence of blocks, a block being a first line and the lines after it. -/
def blockLines : List (String × List String) → List String
  | [] => []
  | blk :: rest => blk.1 :: (blk.2 ++ blockLines rest)

/-- The shape of a loop over the lines of a report: a boundary line emits the record in progress unless
it equals `zero` and starts the record `fresh line`; any other line updates the record in
progress. `vlanStep_eq` below shows that the loop of `ParseVlans` has this shape. -/
def sectionStep {R : Type} [DecidableEq R] (zero : R) (bd : String → Bool)
    (fresh : String → R) (upd : R → String → R) (st : List R × R) (line : String) :
    List R × R :=
  if bd line = true then (if st.2 ≠ zero then st.1 ++ [st.2] else st.1, fresh line)
  else (st.1, upd st.2 line)

/-- The records emitted so far together with the record in progress, unless it is `zero`. -/
def emitted {R : Type} [DecidableEq R] (zero : R) (st : List R × R) : List R :=
  if st.2 ≠ zero then st.1 ++ [st.2] else st.1

/-- Whether a line is a boundary line of the vlan-traffic report. -/
def isVlanBoundary (line : String) : Bool := (FindStringSubmatch deviceNameRegexp line).isSome

/-- The name that the boundary line of a vlan block captures (group 1). -/
def vlanName (line : String) : String :=
  sub ((FindStringSubmatch deviceNameRegexp line).getD []) 1

/-- What a line does to the record in progress in the field part of `ParseVlans`. -/
def vlanUpdate {F : Type} [Zero F] [DecidableEq F] (im : Imports F) (cur : Interface F)
    (line : String) : Interface F :=
  (vlanFields im ([], cur) line).2

/-! ## Which rule a line fires -/

/-- The rules of `ParseVlans`, in the order in which the loop body tries them. -/
inductive VlanRule where
  | deviceName | inputBytes | outputBytes
  deriving DecidableEq

/-- The rule of `ParseVlans` that a line fires: the first pattern that matches it. -/
def vlanRule (line : String) : Option VlanRule :=
  if (FindStringSubmatch deviceNameRegexp line).isSome then some VlanRule.deviceName
  else if (FindStringSubmatch inputBytesRegexp line).isSome then some VlanRule.inputBytes
  else if (FindStringSubmatch outputBytesRegexp line).isSome then some VlanRule.outputBytes
  else none

/-- The attribute of a record that a rule of `ParseVlans` assigns. -/
def vlanAttr {F : Type} [Zero F] (rule : VlanRule) (r : Interface F) : List String × List F :=
  match rule with
  | VlanRule.deviceName => ([r.Name], [])
  | VlanRule.inputBytes => ([], [r.InputBytes])
  | VlanRule.outputBytes => ([], [r.OutputBytes])

/-- The value that a rule of `ParseVlans` captures from a line, as it stores it. -/
def vlanCapture {F : Type} (im : Imports F) (rule : VlanRule) (line : String) :
    List String × List F :=
  match rule with
  | VlanRule.deviceName => ([sub ((FindStringSubmatch deviceNameRegexp line).getD []) 1], [])
  | VlanRule.inputBytes =>
    ([], [im.Str2float64 (sub ((FindStringSubmatch inputBytesRegexp line).getD []) 1)])
  | VlanRule.outputBytes =>
    ([], [im.Str2float64 (sub ((FindStringSubmatch outputBytesRegexp line).getD []) 1)])

/-- A line of the port report made of a label, a colon and a token, with runs of
whitespace `w1`, `w2`, `w3`, `w4` around them: `w1 label w2 : w3 t w4`. -/
def enumLine (w1 : List Char) (label : String) (w2 w3 t w4 : List Char) : String :=
  String.mk (w1 ++ (label.data ++ (w2 ++ (':' :: (w3 ++ (t ++ w4))))))

/-! ## Facts about the matcher -/

theorem many_some {α : Type} (p : Char → Bool) (k : List Char → Option α) (r : α) :
    ∀ s : List Char, many p k s = some r → ∃ s1, s1.length ≤ s.length ∧ k s1 = some r := by
  intro s
  induction s with
  | nil => intro h; exact ⟨[], le_refl _, h⟩
  | cons c cs ih =>
    intro h
    unfold many at h
    split at h
    · split at h
      · next r1 h1 =>
        obtain ⟨s1, hl, hk⟩ := ih (by rw [h1, h])
        exact ⟨s1, by simp only [List.length_cons]; omega, hk⟩
      · exact ⟨c :: cs, le_refl _, h⟩
    · exact ⟨c :: cs, le_refl _, h⟩

theorem many_some_split {α : Type} (p : Char → Bool) (k : List Char → Option α) (r : α) :
    ∀ s : List Char, many p k s = some r →
      ∃ t s1, s = t ++ s1 ∧ (∀ c ∈ t, p c = true) ∧ k s1 = some r := by
  intro s
  induction s with
  | nil => intro h; exact ⟨[], [], rfl, by simp, h⟩
  | cons c cs ih =>
    intro h
    unfold many at h
    split at h
    · next hp =>
      split at h
      · next r1 h1 =>
        obtain ⟨t, s1, hs, ht, hk⟩ := ih (by rw [h1, h])
        refine ⟨c :: t, s1, by rw [hs]; rfl, ?_, hk⟩
        intro d hd
        cases hd with
        | head => exact hp
        | tail _ hd1 => exact ht d hd1
      · exact ⟨[], c :: cs, rfl, by simp, h⟩
    · exact ⟨[], c :: cs, rfl, by simp, h⟩

theorem many_of_all {α : Type} (p : Char → Bool) (k : List Char → Option α) (r : α)
    (s : List Char) (hk : many p k s = some r) :
    ∀ w : List Char, (∀ c ∈ w, p c = true) → many p k (w ++ s) = some r := by
  intro w
  induction w with
  | nil => intro _; simpa using hk
  | cons c cs ih =>
    intro hw
    have hc : p c = true := hw c (List.mem_cons_self _ _)
    have hcs := ih (fun d hd => hw d (List.mem_cons_of_mem _ hd))
    show many p k (c :: (cs ++ s)) = some r
    unfold many
    rw [if_pos hc, hcs]

theorem stripLit_length (l : List Char) :
    ∀ s s1 : List Char, stripLit l s = some s1 → s1.length ≤ s.length := by
  induction l with
  | nil => intro s s1 h; simp only [stripLit, Option.some.injEq] at h; rw [h]
  | cons a l ih =>
    intro s s1 h
    cases s with
    | nil => simp [stripLit] at h
    | cons c s =>
      simp only [stripLit] at h
      split at h
      · have := ih s s1 h
        simp only [List.length_cons]; omega
      · simp at h

/-- The submatch slice of a successful match is the whole match, then the groups that were
already closed, then the groups closed later. -/
theorem matchItems_caps (start : List Char) :
    ∀ (items : List Item) (s mark : List Char) (caps m : List String),
      matchItems start items s mark caps = some m → ∃ w extra, m = w :: (caps ++ extra) := by
  intro items
  induction items with
  | nil =>
    intro s mark caps m h
    simp only [matchItems, Option.some.injEq] at h
    exact ⟨consumed start s, [], by rw [← h, List.append_nil]⟩
  | cons it r ih =>
    intro s mark caps m h
    cases it with
    | lit l =>
      simp only [matchItems] at h
      split at h
      · exact ih _ _ _ _ h
      · simp at h
    | plus p =>
      simp only [matchItems] at h
      split at h
      · simp at h
      · split at h
        · obtain ⟨s1, _, hk⟩ := many_some _ _ _ _ h
          exact ih _ _ _ _ hk
        · simp at h
    | star p =>
      simp only [matchItems] at h
      obtain ⟨s1, _, hk⟩ := many_some _ _ _ _ h
      exact ih _ _ _ _ hk
    | opt c =>
      simp only [matchItems] at h
      split at h
      · exact ih _ _ _ _ h
      · split at h
        · split at h
          · next m1 h1 => exact ih _ _ _ _ (by rw [h1, h])
          · exact ih _ _ _ _ h
        · exact ih _ _ _ _ h
    | alt a b =>
      simp only [matchItems] at h
      split at h
      · next m1 h1 =>
        split at h1
        · exact ih _ _ _ _ (by rw [h1, h])
        · simp at h1
      · split at h
        · exact ih _ _ _ _ h
        · simp at h
    | gopen =>
      simp only [matchItems] at h
      exact ih _ _ _ _ h
    | gclose =>
      simp only [matchItems] at h
      obtain ⟨w, extra, hm⟩ := ih _ _ _ _ h
      exact ⟨w, consumed mark s :: extra, by simp [hm]⟩
    | eol =>
      simp only [matchItems] at h
      split at h
      · exact ih _ _ _ _ h
      · simp at h

theorem plus_some (start : List Char) (p : Char → Bool) (r : List Item)
    (s mark : List Char) (caps m : List String)
    (h : matchItems start (Item.plus p :: r) s mark caps = some m) :
    ∃ c cs s1, s = c :: cs ∧ p c = true ∧ s1.length ≤ cs.length ∧
      matchItems start r s1 mark caps = some m := by
  simp only [matchItems] at h
  split at h
  · simp at h
  · next c cs =>
    split at h
    · next hp =>
      obtain ⟨s1, hl, hk⟩ := many_some _ _ _ _ h
      exact ⟨c, cs, s1, rfl, hp, hl, hk⟩
    · simp at h

theorem lit_some (start : List Char) (l : String) (r : List Item)
    (s mark : List Char) (caps m : List String)
    (h : matchItems start (Item.lit l :: r) s mark caps = some m) :
    ∃ s1, s1.length ≤ s.length ∧ matchItems start r s1 mark caps = some m := by
  simp only [matchItems] at h
  split at h
  · next s1 h1 => exact ⟨s1, stripLit_length _ _ _ h1, h⟩
  · simp at h

theorem gopen_eq (start : List Char) (r : List Item) (s mark : List Char)
    (caps : List String) :
    matchItems start (Item.gopen :: r) s mark caps = matchItems start r s s caps := by
  simp only [matchItems]

theorem gclose_eq (start : List Char) (r : List Item) (s mark : List Char)
    (caps : List String) :
    matchItems start (Item.gclose :: r) s mark caps
      = matchItems start r s mark (caps ++ [consumed mark s]) := by
  simp only [matchItems]

theorem consumed_ne_empty (mark s : List Char) (h : s.length < mark.length) :
    consumed mark s ≠ "" := by
  intro hc
  have hd : (consumed mark s).data = [] := by rw [hc]
  simp only [consumed] at hd
  have hl := congrArg List.length hd
  simp only [List.length_take, List.length_nil] at hl
  omega

theorem sub_one (w c : String) (extra : List String) : sub (w :: ([c] ++ extra)) 1 = c := by
  simp [sub]

/-- The name captured by the boundary pattern of `ParseVlans` is never the empty string. -/
theorem deviceName_name_ne (line : String) (m : List String)
    (h : FindStringSubmatch deviceNameRegexp line = some m) : sub m 1 ≠ "" := by
  simp only [FindStringSubmatch, deviceNameRegexp, if_true] at h
  rw [gopen_eq] at h
  obtain ⟨c, cs, s1, hs, _, h1, h⟩ := plus_some _ _ _ _ _ _ _ h
  obtain ⟨s2, h2, h⟩ := lit_some _ _ _ _ _ _ _ h
  obtain ⟨_, _, s3, hs2, _, h3, h⟩ := plus_some _ _ _ _ _ _ _ h
  rw [gclose_eq] at h
  obtain ⟨w, extra, hm⟩ := matchItems_caps _ _ _ _ _ _ h
  rw [hm, List.nil_append, sub_one]
  refine consumed_ne_empty _ _ ?_
  rw [hs]
  rw [hs2] at h2
  simp only [List.length_cons] at h2 ⊢
  omega

/-- A line matched by the boundary pattern of `ParseVlans` starts with a character of its
bracket class. -/
theorem deviceName_first (line : String) (m : List String)
    (h : FindStringSubmatch deviceNameRegexp line = some m) :
    ∃ c cs, line.data = c :: cs ∧ isNameChar c = true := by
  simp only [FindStringSubmatch, deviceNameRegexp, if_true] at h
  rw [gopen_eq] at h
  obtain ⟨c, cs, _, hs, hp, _, _⟩ := plus_some _ _ _ _ _ _ _ h
  exact ⟨c, cs, hs, hp⟩

theorem isSpace_of_isNameChar (c : Char) (h : isNameChar c = true) : isSpace c = false := by
  simp only [isNameChar, Bool.or_eq_true, Bool.and_eq_true, decide_eq_true_eq] at h
  simp only [isSpace, Bool.or_eq_false_iff, decide_eq_false_iff_not]
  omega

/-- A pattern `^\s+...` matches no line that is empty or starts with a character outside
`\s`. -/
theorem anchored_space_none (r : List Item) (line : String)
    (h : ∀ c cs, line.data = c :: cs → isSpace c = false) :
    FindStringSubmatch ⟨true, Item.plus isSpace :: r⟩ line = none := by
  simp only [FindStringSubmatch, if_true, matchItems]
  split
  · rfl
  · next c cs hs => rw [h c cs hs]; simp

/-! ## Facts about the shape of a line loop -/

section Shape

variable {R : Type} [DecidableEq R] (zero : R) (bd : String → Bool) (fresh : String → R)
  (upd : R → String → R)

theorem sectionStep_items (front : List R) (st : List R × R) (line : String) :
    sectionStep zero bd fresh upd (front ++ st.1, st.2) line
      = (front ++ (sectionStep zero bd fresh upd st line).1,
          (sectionStep zero bd fresh upd st line).2) := by
  unfold sectionStep
  by_cases hb : bd line = true
  · by_cases hz : st.2 = zero
    · simp [hb, hz]
    · simp [hb, hz]
  · simp [hb]

theorem fold_items (front : List R) (lines : List String) :
    ∀ st : List R × R,
      lines.foldl (sectionStep zero bd fresh upd) (front ++ st.1, st.2)
        = (front ++ (lines.foldl (sectionStep zero bd fresh upd) st).1,
            (lines.foldl (sectionStep zero bd fresh upd) st).2) := by
  induction lines with
  | nil => intro st; rfl
  | cons l ls ih =>
    intro st
    simp only [List.foldl_cons]
    rw [sectionStep_items, ih]

theorem fold_span (span : List String) (hs : ∀ l ∈ span, bd l = false) :
    ∀ st : List R × R,
      span.foldl (sectionStep zero bd fresh upd) st = (st.1, span.foldl upd st.2) := by
  induction span with
  | nil => intro st; rfl
  | cons l ls ih =>
    intro st
    have hl : bd l = false := hs l (List.mem_cons_self _ _)
    simp only [List.foldl_cons]
    rw [ih (fun x hx => hs x (List.mem_cons_of_mem _ hx))]
    simp [sectionStep, hl]

theorem fold_append_boundary (A B : List String) (b : String) (hb : bd b = true) :
    (A ++ b :: B).foldl (sectionStep zero bd fresh upd) ([], zero)
      = (emitted zero (A.foldl (sectionStep zero bd fresh upd) ([], zero))
            ++ (B.foldl (sectionStep zero bd fresh upd) ([], fresh b)).1,
          (B.foldl (sectionStep zero bd fresh upd) ([], fresh b)).2) := by
  rw [List.foldl_append, List.foldl_cons]
  have h1 : sectionStep zero bd fresh upd
      (A.foldl (sectionStep zero bd fresh upd) ([], zero)) b
      = (emitted zero (A.foldl (sectionStep zero bd fresh upd) ([], zero)) ++ [], fresh b) := by
    simp [sectionStep, emitted, hb]
  rw [h1]
  exact fold_items zero bd fresh upd _ B ([], fresh b)

theorem fold_boundary_first (B : List String) (b : String) (hb : bd b = true) :
    (b :: B).foldl (sectionStep zero bd fresh upd) ([], zero)
      = B.foldl (sectionStep zero bd fresh upd) ([], fresh b) := by
  simp [sectionStep, hb]

/-- On a sequence of blocks the loop returns, in order, one record per block: the fresh
record of its boundary line updated by the lines of its span. -/
theorem fold_blocks
    (hne : ∀ (b : String) (span : List String), bd b = true → span.foldl upd (fresh b) ≠ zero) :
    ∀ (blk : String × List String) (blocks : List (String × List String)),
      (∀ x ∈ blk :: blocks, bd x.1 = true ∧ ∀ l ∈ x.2, bd l = false) →
      (fun st : List R × R => st.1 ++ [st.2])
          ((blockLines (blk :: blocks)).foldl (sectionStep zero bd fresh upd) ([], zero))
        = (blk :: blocks).map (fun x => x.2.foldl upd (fresh x.1)) := by
  intro blk blocks
  induction blocks generalizing blk with
  | nil =>
    intro h
    obtain ⟨hb, hs⟩ := h blk (List.mem_cons_self _ _)
    simp only [blockLines, List.append_nil, List.map_cons, List.map_nil]
    rw [fold_boundary_first zero bd fresh upd _ _ hb, fold_span zero bd fresh upd _ hs]
    rfl
  | cons blk2 rest ih =>
    intro h
    obtain ⟨hb, hs⟩ := h blk (List.mem_cons_self _ _)
    have h2 := ih blk2 (fun x hx => h x (List.mem_cons_of_mem _ hx))
    obtain ⟨hb2, _⟩ := h blk2 (List.mem_cons_of_mem _ (List.mem_cons_self _ _))
    have hlines : blockLines (blk :: blk2 :: rest)
        = (blk.1 :: blk.2) ++ blk2.1 :: (blk2.2 ++ blockLines rest) := by
      simp [blockLines]
    have hlines2 : blockLines (blk2 :: rest) = blk2.1 :: (blk2.2 ++ blockLines rest) := by
      simp [blockLines]
    rw [hlines, fold_append_boundary zero bd fresh upd _ _ _ hb2]
    rw [hlines2, fold_boundary_first zero bd fresh upd _ _ hb2] at h2
    rw [fold_boundary_first zero bd fresh upd _ _ hb, fold_span zero bd fresh upd _ hs]
    simp only [emitted, hne blk.1 blk.2 hb, ne_eq, not_false_eq_true, if_true,
      List.nil_append, List.map_cons]
    simp only [List.map_cons] at h2
    simp only [List.cons_append, List.nil_append, List.append_assoc]
    rw [← h2]

/-- The same with lines before the first block that are not boundary lines: what they
leave in the placeholder record is emitted first, unless it is `zero`. -/
theorem fold_pre_blocks
    (hne : ∀ (b : String) (span : List String), bd b = true → span.foldl upd (fresh b) ≠ zero)
    (pre : List String) (hpre : ∀ l ∈ pre, bd l = false)
    (blk : String × List String) (blocks : List (String × List String))
    (hw : ∀ x ∈ blk :: blocks, bd x.1 = true ∧ ∀ l ∈ x.2, bd l = false) :
    (fun st : List R × R => st.1 ++ [st.2])
        ((pre ++ blockLines (blk :: blocks)).foldl (sectionStep zero bd fresh upd) ([], zero))
      = emitted zero ([], pre.foldl upd zero)
          ++ (blk :: blocks).map (fun x => x.2.foldl upd (fresh x.1)) := by
  have hb := (hw blk (List.mem_cons_self _ _)).1
  have h1 := fold_blocks zero bd fresh upd hne blk blocks hw
  have hlines : blockLines (blk :: blocks) = blk.1 :: (blk.2 ++ blockLines blocks) := rfl
  rw [hlines] at h1 ⊢
  rw [fold_boundary_first zero bd fresh upd _ _ hb] at h1
  rw [fold_append_boundary zero bd fresh upd _ _ _ hb, fold_span zero bd fresh upd _ hpre]
  simp only [List.append_assoc]
  rw [← h1]

omit [DecidableEq R] in
theorem fold_keeps {α : Type} (view : R → α) (span : List String)
    (h : ∀ l ∈ span, ∀ r, view (upd r l) = view r) :
    ∀ r, view (span.foldl upd r) = view r := by
  induction span with
  | nil => intro r; rfl
  | cons l ls ih =>
    intro r
    rw [List.foldl_cons, ih (fun x hx => h x (List.mem_cons_of_mem _ hx)),
      h l (List.mem_cons_self _ _)]

/-- After a first boundary line the record in progress keeps every property that fresh
records have and updates keep. -/
theorem fold_current (P : R → Prop) (hf : ∀ l, bd l = true → P (fresh l))
    (hu : ∀ r l, P r → P (upd r l)) (lines : List String) :
    ∀ st : List R × R, P st.2 → P (lines.foldl (sectionStep zero bd fresh upd) st).2 := by
  induction lines with
  | nil => intro st h; exact h
  | cons l ls ih =>
    intro st h
    rw [List.foldl_cons]
    apply ih
    unfold sectionStep
    by_cases hb : bd l = true
    · rw [if_pos hb]; exact hf l hb
    · rw [if_neg hb]; exact hu _ _ h

/-- The loop distributes over two runs of lines when each starts with a boundary line and
records in progress that a boundary line started never equal `zero`. -/
theorem fold_distrib (P : R → Prop) (hz : ∀ r, P r → r ≠ zero)
    (hf : ∀ l, bd l = true → P (fresh l)) (hu : ∀ r l, P r → P (upd r l))
    (a b : String) (as bs : List String) (ha : bd a = true) (hb : bd b = true) :
    (fun st : List R × R => st.1 ++ [st.2])
        (((a :: as) ++ b :: bs).foldl (sectionStep zero bd fresh upd) ([], zero))
      = (fun st : List R × R => st.1 ++ [st.2])
          ((a :: as).foldl (sectionStep zero bd fresh upd) ([], zero))
        ++ (fun st : List R × R => st.1 ++ [st.2])
          ((b :: bs).foldl (sectionStep zero bd fresh upd) ([], zero)) := by
  rw [fold_append_boundary zero bd fresh upd _ _ _ hb,
    fold_boundary_first zero bd fresh upd bs b hb]
  have hne : ((a :: as).foldl (sectionStep zero bd fresh upd) ([], zero)).2 ≠ zero := by
    rw [fold_boundary_first zero bd fresh upd as a ha]
    exact hz _ (fold_current zero bd fresh upd P hf hu as _ (hf a ha))
  simp only [emitted, hne, ne_eq, not_false_eq_true, if_true, List.append_assoc]

end Shape

/-! ## The loop of `ParseVlans` has this shape -/

section Instances

variable {F : Type} [Zero F] [DecidableEq F]

omit [DecidableEq F] in
theorem named_ne_zero (n : String) (h : n ≠ "") : ({ Name := n } : Interface F) ≠ {} := by
  intro hz
  exact h (congrArg Interface.Name hz)

omit [DecidableEq F] in
theorem ne_zero_of_name (r : Interface F) (h : r.Name ≠ "") : r ≠ {} := by
  intro hz
  exact h (by rw [hz])

theorem vlanName_ne (line : String) (h : isVlanBoundary line = true) : vlanName line ≠ "" := by
  unfold isVlanBoundary at h
  unfold vlanName
  cases hm : FindStringSubmatch deviceNameRegexp line with
  | none => rw [hm] at h; simp at h
  | some m => exact deviceName_name_ne line m hm

theorem vlan_boundary_no_field (line : String) (h : isVlanBoundary line = true) :
    FindStringSubmatch inputBytesRegexp line = none
      ∧ FindStringSubmatch outputBytesRegexp line = none := by
  unfold isVlanBoundary at h
  cases hm : FindStringSubmatch deviceNameRegexp line with
  | none => rw [hm] at h; simp at h
  | some m =>
    obtain ⟨c, cs, hs, hc⟩ := deviceName_first line m hm
    have hsp : ∀ d ds, line.data = d :: ds → isSpace d = false := by
      intro d ds hd
      rw [hs] at hd
      cases hd
      exact isSpace_of_isNameChar c hc
    exact ⟨anchored_space_none _ line hsp, anchored_space_none _ line hsp⟩

theorem vlanStep_eq (im : Imports F) (st : List (Interface F) × Interface F)
    (line : String) :
    vlanStep im st line
      = sectionStep {} isVlanBoundary (fun l => { Name := vlanName l }) (vlanUpdate im)
          st line := by
  by_cases hb : isVlanBoundary line = true
  · obtain ⟨hi, ho⟩ := vlan_boundary_no_field line hb
    have hn := named_ne_zero (F := F) (vlanName line) (vlanName_ne line hb)
    have hv : vlanBoundary st line
        = (if st.2 ≠ {} then st.1 ++ [st.2] else st.1, { Name := vlanName line }) := by
      unfold vlanBoundary vlanName
      unfold isVlanBoundary at hb
      cases hm : FindStringSubmatch deviceNameRegexp line with
      | none => rw [hm] at hb; simp at hb
      | some m => simp [hm]
    unfold vlanStep sectionStep
    rw [hv, if_pos hb]
    unfold vlanFields
    simp only [hi, ho]
    rw [if_neg hn]
  · have hv : vlanBoundary st line = st := by
      unfold vlanBoundary
      unfold isVlanBoundary at hb
      cases hm : FindStringSubmatch deviceNameRegexp line with
      | none => rfl
      | some m => rw [hm] at hb; simp at hb
    unfold vlanStep sectionStep
    rw [hv, if_neg hb]
    unfold vlanUpdate vlanFields
    repeat' split
    all_goals rfl

theorem vlanUpdate_name (im : Imports F) (cur : Interface F) (line : String) :
    (vlanUpdate im cur line).Name = cur.Name := by
  unfold vlanUpdate vlanFields
  repeat' split
  all_goals rfl

theorem vlanUpdate_zero (im : Imports F) (line : String) :
    vlanUpdate im ({} : Interface F) line = {} := by
  unfold vlanUpdate vlanFields
  simp

theorem vlanStep_fun (im : Imports F) :
    vlanStep im
      = sectionStep {} isVlanBoundary (fun l => { Name := vlanName l }) (vlanUpdate im) :=
  funext fun st => funext fun line => vlanStep_eq im st line

theorem ParseVlans_supported (im : Imports F) (text : String) :
    ParseVlans im im.ArubaSwitch text
      = ((fun st : List (Interface F) × Interface F => st.1 ++ [st.2])
          ((Split text).foldl (sectionStep {} isVlanBoundary (fun l => { Name := vlanName l })
            (vlanUpdate im)) ([], {})), none) := by
  unfold ParseVlans
  rw [vlanStep_fun]
  simp

theorem vlanUpdate_fold_zero (im : Imports F) (lines : List String) :
    lines.foldl (vlanUpdate im) ({} : Interface F) = {} := by
  induction lines with
  | nil => rfl
  | cons l ls ih => rw [List.foldl_cons, vlanUpdate_zero, ih]

theorem vlanUpdate_fold_name (im : Imports F) (span : List String) :
    ∀ cur : Interface F, (span.foldl (vlanUpdate im) cur).Name = cur.Name := by
  induction span with
  | nil => intro cur; rfl
  | cons l ls ih =>
    intro cur
    rw [List.foldl_cons, ih, vlanUpdate_name]

theorem vlan_block_ne (im : Imports F) (b : String) (span : List String)
    (hb : isVlanBoundary b = true) :
    span.foldl (vlanUpdate im) ({ Name := vlanName b } : Interface F) ≠ {} := by
  refine ne_zero_of_name _ ?_
  rw [vlanUpdate_fold_name]
  exact vlanName_ne b hb

/-- On a text that is a sequence of vlan blocks, `ParseVlans` returns one record per
block. -/
theorem ParseVlans_blocks (im : Imports F) (text : String) (blk : String × List String)
    (blocks : List (String × List String))
    (hl : Split text = blockLines (blk :: blocks))
    (hw : ∀ x ∈ blk :: blocks, isVlanBoundary x.1 = true ∧ ∀ l ∈ x.2, isVlanBoundary l = false) :
    ParseVlans im im.ArubaSwitch text
      = ((blk :: blocks).map
          (fun x => x.2.foldl (vlanUpdate im) ({ Name := vlanName x.1 } : Interface F)), none) := by
  rw [ParseVlans_supported, hl]
  rw [fold_blocks {} isVlanBoundary (fun l => ({ Name := vlanName l } : Interface F))
    (vlanUpdate im) (fun b span hb => vlan_block_ne im b span hb) blk blocks hw]

end Instances

/-! ## Facts about `Split` -/

theorem splitChars_ne_nil (s : List Char) : splitChars s ≠ [] := by
  cases s with
  | nil => simp [splitChars]
  | cons c cs =>
    unfold splitChars
    split
    · simp
    · split <;> simp

theorem splitChars_append (a b : List Char) :
    splitChars (a ++ Char.ofNat 10 :: b) = splitChars a ++ splitChars b := by
  induction a with
  | nil => simp [splitChars]
  | cons c cs ih =>
    by_cases hc : c.toNat = 10
    · simp [splitChars, hc, ih]
    · simp only [List.cons_append, splitChars, hc, if_false]
      have ih2 : splitChars (cs.append (Char.ofNat 10 :: b)) = splitChars cs ++ splitChars b := ih
      rw [ih2]
      cases hs : splitChars cs with
      | nil => exact absurd hs (splitChars_ne_nil cs)
      | cons l ls => simp

theorem Split_append (a b : String) : Split (a ++ "\n" ++ b) = Split a ++ Split b := by
  unfold Split
  have hd : (a ++ "\n" ++ b).data = a.data ++ Char.ofNat 10 :: b.data := by
    simp [String.data_append]
  rw [hd, splitChars_append, List.map_append]

theorem Split_ne_nil (a : String) : Split a ≠ [] := by
  unfold Split
  simp [splitChars_ne_nil]

section Rules

variable {F : Type} [Zero F] [DecidableEq F]

/-- What a line does to a record in progress other than `Interface{}` in `ParseVlans`,
when the line is not a boundary line. -/
theorem vlanUpdate_eq (im : Imports F) (cur : Interface F) (l : String) (hc : cur ≠ {})
    (hb : isVlanBoundary l = false) :
    vlanUpdate im cur l
      = match vlanRule l with
        | some VlanRule.deviceName => cur
        | some VlanRule.inputBytes =>
          { cur with
            InputBytes :=
              im.Str2float64 (sub ((FindStringSubmatch inputBytesRegexp l).getD []) 1) }
        | some VlanRule.outputBytes =>
          { cur with
            OutputBytes :=
              im.Str2float64 (sub ((FindStringSubmatch outputBytesRegexp l).getD []) 1) }
        | none => cur := by
  unfold isVlanBoundary at hb
  unfold vlanUpdate vlanFields vlanRule
  rw [hb]
  simp only [if_neg hc]
  cases h2 : FindStringSubmatch inputBytesRegexp l with
  | some m => simp
  | none =>
  cases h3 : FindStringSubmatch outputBytesRegexp l with
  | some m => simp
  | none => simp

theorem vlanRule_boundary (l : String) :
    vlanRule l = some VlanRule.deviceName ↔ isVlanBoundary l = true := by
  unfold vlanRule isVlanBoundary
  constructor
  · intro h
    by_contra hn
    rw [if_neg hn] at h
    repeat' split at h
    all_goals simp at h
  · intro h
    rw [if_pos h]

theorem vlanUpdate_fires (im : Imports F) (cur : Interface F) (l : String) (rule : VlanRule)
    (hc : cur ≠ {}) (hb : isVlanBoundary l = false) (h : vlanRule l = some rule) :
    vlanAttr rule (vlanUpdate im cur l) = vlanCapture im rule l := by
  rw [vlanUpdate_eq im cur l hc hb, h]
  cases rule with
  | deviceName =>
    rw [(vlanRule_boundary l).mp h] at hb
    simp at hb
  | inputBytes => rfl
  | outputBytes => rfl

theorem vlanUpdate_other (im : Imports F) (cur : Interface F) (l : String) (rule : VlanRule)
    (h : vlanRule l ≠ some rule) :
    vlanAttr rule (vlanUpdate im cur l) = vlanAttr rule cur := by
  by_cases hc : cur = {}
  · rw [hc, vlanUpdate_zero]
  · unfold vlanUpdate vlanFields
    unfold vlanRule at h
    simp only [if_neg hc]
    cases h2 : FindStringSubmatch inputBytesRegexp l with
    | some m =>
      cases rule with
      | deviceName => rfl
      | inputBytes =>
        rw [h2] at h
        by_cases h1 : (FindStringSubmatch deviceNameRegexp l).isSome = true
        · have := vlan_boundary_no_field l h1
          rw [h2] at this
          simp at this
        · simp [h1] at h
      | outputBytes => rfl
    | none =>
      cases h3 : FindStringSubmatch outputBytesRegexp l with
      | some m =>
        cases rule with
        | deviceName => rfl
        | inputBytes => rfl
        | outputBytes =>
          rw [h2, h3] at h
          by_cases h1 : (FindStringSubmatch deviceNameRegexp l).isSome = true
          · have := vlan_boundary_no_field l h1
            rw [h3] at this
            simp at this
          · simp [h1] at h
      | none => rfl

end Rules

section Spans

variable {F : Type} [Zero F] [DecidableEq F]

theorem ParseVlans_pre_blocks (im : Imports F) (text : String) (pre : List String)
    (blocks : List (String × List String)) (hb : blocks ≠ [])
    (hl : Split text = pre ++ blockLines blocks)
    (hpre : ∀ l ∈ pre, isVlanBoundary l = false)
    (hw : ∀ x ∈ blocks, isVlanBoundary x.1 = true ∧ ∀ l ∈ x.2, isVlanBoundary l = false) :
    ∃ recs, (ParseVlans im im.ArubaSwitch text).1
      = recs ++ blocks.map
          (fun x => x.2.foldl (vlanUpdate im) ({ Name := vlanName x.1 } : Interface F)) := by
  cases blocks with
  | nil => exact absurd rfl hb
  | cons blk rest =>
    rw [ParseVlans_supported, hl]
    exact ⟨_, fold_pre_blocks {} isVlanBoundary (fun l => ({ Name := vlanName l } : Interface F))
      (vlanUpdate im) (fun b span hb => vlan_block_ne im b span hb) pre hpre blk rest hw⟩

/-- The record of a vlan block whose span holds a line that fires `rule` and no later line
that fires it. -/
theorem vlan_span_last (im : Imports F) (b : String) (a c : List String) (line : String)
    (rule : VlanRule) (hb : isVlanBoundary b = true)
    (hs : ∀ l ∈ a ++ line :: c, isVlanBoundary l = false)
    (hf : vlanRule line = some rule) (hc : ∀ l ∈ c, vlanRule l ≠ some rule) :
    ((a ++ line :: c).foldl (vlanUpdate im) ({ Name := vlanName b } : Interface F)).Name
        = vlanName b
      ∧ vlanAttr rule
          ((a ++ line :: c).foldl (vlanUpdate im) ({ Name := vlanName b } : Interface F))
        = vlanCapture im rule line := by
  refine ⟨vlanUpdate_fold_name im _ _, ?_⟩
  rw [List.foldl_append, List.foldl_cons]
  rw [fold_keeps (vlanUpdate im) (vlanAttr rule) c]
  · exact vlanUpdate_fires im _ line rule (vlan_block_ne im b a hb) (hs line (by simp)) hf
  · intro l hl r
    exact vlanUpdate_other im r l rule (hc l hl)

end Spans

/-- The input line of scenario B behind a non-empty run of whitespace matches
`inputBytesRegexp`, and group 1 is the byte count. -/
theorem indented_input (w : List Char) (hne : w ≠ []) (hw : ∀ c ∈ w, isSpace c = true) :
    ∃ whole, FindStringSubmatch inputBytesRegexp
        (String.mk (w ++ "Total 5 packets, 500 bytes input".data)) = some [whole, "500"] := by
  cases w with
  | nil => exact absurd rfl hne
  | cons c w1 =>
    refine ⟨consumed (c :: w1 ++ "Total 5 packets, 500 bytes input".data) [], ?_⟩
    have hc : isSpace c = true := hw c (List.mem_cons_self _ _)
    simp only [FindStringSubmatch, inputBytesRegexp, if_true, List.cons_append]
    rw [matchItems]
    simp only [hc, if_true]
    apply many_of_all
    · simp [matchItems, stripLit, many, isSpace, isDigit, isAny, consumed]
    · exact fun d hd => hw d (List.mem_cons_of_mem _ hd)

/-- The output line of scenario B behind a non-empty run of whitespace matches
`outputBytesRegexp` with the byte count in group 1, and does not match `inputBytesRegexp`,
which the loop tries first. -/
theorem indented_output (w : List Char) (hne : w ≠ []) (hw : ∀ c ∈ w, isSpace c = true) :
    ∃ whole, FindStringSubmatch outputBytesRegexp
        (String.mk (w ++ "Total 5 packets, 600 bytes output".data)) = some [whole, "600"]
      ∧ FindStringSubmatch inputBytesRegexp
        (String.mk (w ++ "Total 5 packets, 600 bytes output".data)) = none := by
  cases w with
  | nil => exact absurd rfl hne
  | cons c w1 =>
    refine ⟨consumed (c :: w1 ++ "Total 5 packets, 600 bytes output".data) [], ?_, ?_⟩
    · have hc : isSpace c = true := hw c (List.mem_cons_self _ _)
      simp only [FindStringSubmatch, outputBytesRegexp, if_true, List.cons_append]
      rw [matchItems]
      simp only [hc, if_true]
      apply many_of_all
      · simp [matchItems, stripLit, many, isSpace, isDigit, isAny, consumed]
      · exact fun d hd => hw d (List.mem_cons_of_mem _ hd)
    · cases hm : FindStringSubmatch inputBytesRegexp
          (String.mk (c :: w1 ++ "Total 5 packets, 600 bytes output".data)) with
      | none => rfl
      | some m =>
        exfalso
        simp only [FindStringSubmatch, inputBytesRegexp, if_true, List.cons_append] at hm
        rw [matchItems] at hm
        split at hm
        · obtain ⟨t, s1, hs, ht, hk⟩ := many_some_split _ _ _ _ hm
          have hs1 : s1 = "Total 5 packets, 600 bytes output".data := by
            rcases List.append_eq_append_iff.mp hs with ⟨a1, h1, h2⟩ | ⟨c1, h1, h2⟩
            · cases a1 with
              | nil => simpa using h2.symm
              | cons x xs =>
                have hx : isSpace x = true := ht x (by rw [h1]; simp)
                have hx2 : x = Char.ofNat 84 := by
                  have := congrArg List.head? h2
                  simpa using this.symm
                rw [hx2] at hx
                simp [isSpace] at hx
            · cases c1 with
              | nil => simpa using h2
              | cons x xs =>
                have hx : isSpace x = true :=
                  hw x (List.mem_cons_of_mem _ (by rw [h1]; simp))
                have hxT : ¬ ('T' = x) := by
                  intro hT
                  rw [← hT] at hx
                  simp [isSpace] at hx
                rw [h2] at hk
                simp [matchItems, stripLit, hxT] at hk
          rw [hs1] at hk
          simp [matchItems, stripLit, many, isSpace, isDigit, isAny, consumed] at hk
        · simp at hm

/-- A line that starts with a character of `\s` is not a boundary line of the vlan report. -/
theorem space_first_not_vlan_boundary (c : Char) (cs : List Char) (hc : isSpace c = true) :
    isVlanBoundary (String.mk (c :: cs)) = false := by
  unfold isVlanBoundary
  cases hm : FindStringSubmatch deviceNameRegexp (String.mk (c :: cs)) with
  | none => rfl
  | some m =>
    obtain ⟨d, ds, hd, hn⟩ := deviceName_first _ m hm
    have hdc : c = d := by
      have := congrArg List.head? hd
      simpa using this
    rw [hdc, isSpace_of_isNameChar d hn] at hc
    simp at hc

/-- The five patterns of `Parse` that start with `^\s+` match no line that is empty or
starts with a character outside `\s`. -/
theorem anchored_rules_none (line : String)
    (h : ∀ c cs, line.data = c :: cs → isSpace c = false) :
    FindStringSubmatch newIfRegexp line = none ∧ FindStringSubmatch descRegexp line = none
      ∧ FindStringSubmatch macRegexp line = none
      ∧ FindStringSubmatch linkStatusRegexp line = none
      ∧ FindStringSubmatch portEnabledRegexp line = none :=
  ⟨anchored_space_none _ line h, anchored_space_none _ line h, anchored_space_none _ line h,
    anchored_space_none _ line h, anchored_space_none _ line h⟩

theorem blockLines_singletons (ls : List String) :
    blockLines (ls.map (fun l => (l, ([] : List String)))) = ls := by
  induction ls with
  | nil => rfl
  | cons l ls ih => simp [blockLines, ih]

section Invariants

variable {F : Type} [Zero F] [DecidableEq F]

end Invariants

/-! ## What a successful match says about the text -/

theorem stripLit_eq (l : List Char) :
    ∀ s s1 : List Char, stripLit l s = some s1 → s = l ++ s1 := by
  induction l with
  | nil => intro s s1 h; simp only [stripLit, Option.some.injEq] at h; simp [h]
  | cons a l ih =>
    intro s s1 h
    cases s with
    | nil => simp [stripLit] at h
    | cons c s =>
      simp only [stripLit] at h
      split at h
      · next hac => rw [hac, ih s s1 h]; rfl
      · simp at h

theorem stripLit_append (l s : List Char) : stripLit l (l ++ s) = some s := by
  induction l with
  | nil => rfl
  | cons a l ih => simp [stripLit, ih]

theorem plus_some_split (start : List Char) (p : Char → Bool) (r : List Item)
    (s mark : List Char) (caps m : List String)
    (h : matchItems start (Item.plus p :: r) s mark caps = some m) :
    ∃ c t s1, s = c :: (t ++ s1) ∧ p c = true ∧ (∀ x ∈ t, p x = true) ∧
      matchItems start r s1 mark caps = some m := by
  simp only [matchItems] at h
  split at h
  · simp at h
  · next c cs =>
    split at h
    · next hp =>
      obtain ⟨t, s1, hs, ht, hk⟩ := many_some_split _ _ _ _ h
      exact ⟨c, t, s1, by rw [hs], hp, ht, hk⟩
    · simp at h

theorem star_some_split (start : List Char) (p : Char → Bool) (r : List Item)
    (s mark : List Char) (caps m : List String)
    (h : matchItems start (Item.star p :: r) s mark caps = some m) :
    ∃ t s1, s = t ++ s1 ∧ (∀ x ∈ t, p x = true) ∧
      matchItems start r s1 mark caps = some m := by
  simp only [matchItems] at h
  exact many_some_split _ _ _ _ h

theorem lit_some_split (start : List Char) (l : String) (r : List Item)
    (s mark : List Char) (caps m : List String)
    (h : matchItems start (Item.lit l :: r) s mark caps = some m) :
    ∃ s1, s = l.data ++ s1 ∧ matchItems start r s1 mark caps = some m := by
  simp only [matchItems] at h
  split at h
  · next s1 h1 => exact ⟨s1, stripLit_eq _ _ _ h1, h⟩
  · simp at h

theorem alt_some_split (start : List Char) (a b : String) (r : List Item)
    (s mark : List Char) (caps m : List String)
    (h : matchItems start (Item.alt a b :: r) s mark caps = some m) :
    ∃ s1, (s = a.data ++ s1 ∨ s = b.data ++ s1) ∧
      matchItems start r s1 mark caps = some m := by
  simp only [matchItems] at h
  split at h
  · next m1 h1 =>
    split at h1
    · next s1 hs => exact ⟨s1, Or.inl (stripLit_eq _ _ _ hs), by rw [h1, h]⟩
    · simp at h1
  · split at h
    · next s1 hs => exact ⟨s1, Or.inr (stripLit_eq _ _ _ hs), h⟩
    · simp at h

theorem eol_some (start : List Char) (r : List Item)
    (s mark : List Char) (caps m : List String)
    (h : matchItems start (Item.eol :: r) s mark caps = some m) :
    s = [] ∧ matchItems start r [] mark caps = some m := by
  simp only [matchItems] at h
  split at h
  · exact ⟨rfl, h⟩
  · simp at h

theorem consumed_append (x s : List Char) : consumed (x ++ s) s = String.mk x := by
  simp [consumed]

/-- Two ways to cut one text into a run of characters of a class and a rest that does not
start with a character of the class are the same way. -/
theorem run_unique (p : Char → Bool) :
    ∀ (a a1 b b1 : List Char), (∀ c ∈ a, p c = true) → (∀ c ∈ a1, p c = true) →
      (∀ c cs, b = c :: cs → p c = false) → (∀ c cs, b1 = c :: cs → p c = false) →
      a ++ b = a1 ++ b1 → a = a1 ∧ b = b1 := by
  intro a
  induction a with
  | nil =>
    intro a1 b b1 _ ha1 hb _ h
    cases a1 with
    | nil => exact ⟨rfl, by simpa using h⟩
    | cons x xs =>
      exfalso
      have hx := ha1 x (List.mem_cons_self _ _)
      simp only [List.nil_append, List.cons_append] at h
      rw [hb x _ h] at hx
      simp at hx
  | cons y ys ih =>
    intro a1 b b1 ha ha1 hb hb1 h
    cases a1 with
    | nil =>
      exfalso
      have hy := ha y (List.mem_cons_self _ _)
      simp only [List.nil_append, List.cons_append] at h
      rw [hb1 y _ h.symm] at hy
      simp at hy
    | cons x xs =>
      simp only [List.cons_append, List.cons.injEq] at h
      obtain ⟨h1, h2⟩ := ih xs b b1 (fun c hc => ha c (List.mem_cons_of_mem _ hc))
        (fun c hc => ha1 c (List.mem_cons_of_mem _ hc)) hb hb1 h.2
      exact ⟨by rw [h.1, h1], h2⟩

/-- A greedy run stops exactly at the end of the run when the continuation fails on every
text that starts inside it. -/
theorem many_run {α : Type} (p : Char → Bool) (k : List Char → Option α)
    (hk : ∀ x y, p x = true → k (x :: y) = none) (s : List Char)
    (hs : ∀ x y, s = x :: y → p x = false) :
    ∀ w : List Char, (∀ c ∈ w, p c = true) → many p k (w ++ s) = k s := by
  intro w
  induction w with
  | nil =>
    intro _
    cases s with
    | nil => rfl
    | cons x y =>
      rw [List.nil_append]
      unfold many
      rw [hs x y rfl]
      simp
  | cons c w ih =>
    intro hw
    have hc : p c = true := hw c (List.mem_cons_self _ _)
    rw [List.cons_append]
    unfold many
    rw [if_pos hc, ih (fun d hd => hw d (List.mem_cons_of_mem _ hd)), hk c _ hc]
    cases k s <;> rfl

theorem lit_ws_none (start : List Char) (l : String) (a : Char) (as : List Char)
    (hl : l.data = a :: as) (ha : isSpace a = false) (r : List Item) (x : Char)
    (y mark : List Char) (caps : List String) (hx : isSpace x = true) :
    matchItems start (Item.lit l :: r) (x :: y) mark caps = none := by
  have hax : ¬ (a = x) := by
    intro h
    rw [h, hx] at ha
    cases ha
  simp [matchItems, hl, stripLit, hax]

theorem lit_append_eq (start : List Char) (l : String) (r : List Item)
    (s mark : List Char) (caps : List String) :
    matchItems start (Item.lit l :: r) (l.data ++ s) mark caps
      = matchItems start r s mark caps := by
  simp [matchItems, stripLit_append]

theorem lit_none (start : List Char) (l : String) (r : List Item)
    (s mark : List Char) (caps : List String) (h : stripLit l.data s = none) :
    matchItems start (Item.lit l :: r) s mark caps = none := by
  simp [matchItems, h]

/-- `\s+` and a literal that starts outside `\s`, on a run of whitespace and a rest that
does not start with whitespace: the run is consumed whole. -/
theorem plus_space_run (start : List Char) (k : List Item)
    (hk : ∀ x y mark caps, isSpace x = true → matchItems start k (x :: y) mark caps = none)
    (c : Char) (w s mark : List Char) (caps : List String)
    (hc : isSpace c = true) (hw : ∀ d ∈ w, isSpace d = true)
    (hs : ∀ x y, s = x :: y → isSpace x = false) :
    matchItems start (Item.plus isSpace :: k) (c :: (w ++ s)) mark caps
      = matchItems start k s mark caps := by
  rw [matchItems]
  simp only [hc, if_true]
  exact many_run isSpace _ (fun x y hx => hk x y mark caps hx) s hs w hw

theorem search_ws (l : String) (a : Char) (as : List Char) (hl : l.data = a :: as)
    (ha : isSpace a = false) (r : List Item) (s : List Char)
    (hs : ∀ x y, s = x :: y → isSpace x = false) (hstrip : stripLit l.data s = none) :
    ∀ w : List Char, (∀ c ∈ w, isSpace c = true) →
      search (Item.plus isSpace :: Item.lit l :: r) (w ++ s)
        = search (Item.plus isSpace :: Item.lit l :: r) s := by
  intro w
  induction w with
  | nil => intro _; rfl
  | cons c w ih =>
    intro hw
    have hc : isSpace c = true := hw c (List.mem_cons_self _ _)
    have hw1 : ∀ d ∈ w, isSpace d = true := fun d hd => hw d (List.mem_cons_of_mem _ hd)
    rw [List.cons_append, search]
    rw [plus_space_run _ _ (fun x y mark caps hx => lit_ws_none _ l a as hl ha r x y mark caps hx)
      c w s _ _ hc hw1 hs, lit_none _ _ _ _ _ _ hstrip]
    exact ih hw1

theorem search_nonws (r : List Item) (s : List Char) :
    ∀ t : List Char, (∀ c ∈ t, isSpace c = false) →
      search (Item.plus isSpace :: r) (t ++ s) = search (Item.plus isSpace :: r) s := by
  intro t
  induction t with
  | nil => intro _; rfl
  | cons c t ih =>
    intro ht
    have hc : isSpace c = false := ht c (List.mem_cons_self _ _)
    rw [List.cons_append, search, matchItems]
    simp only [hc, Bool.false_eq_true, if_false]
    exact ih (fun d hd => ht d (List.mem_cons_of_mem _ hd))

theorem search_nil (r : List Item) : search (Item.plus isSpace :: r) [] = none := by
  simp [search, matchItems]

/-- A literal made of a word, a whitespace character and more text does not start a text
made of a word and a run of whitespace that ends the text. -/
theorem word_no_match (l : String) (xw : List Char) (sp x1 : Char) (xr : List Char)
    (hl : l.data = xw ++ sp :: x1 :: xr) (hxw : ∀ c ∈ xw, isSpace c = false)
    (hsp : isSpace sp = true) (hx1 : isSpace x1 = false)
    (u rest : List Char) (hu : ∀ c ∈ u, isSpace c = false)
    (hrest : ∀ c ∈ rest, isSpace c = true) :
    stripLit l.data (u ++ rest) = none := by
  cases h : stripLit l.data (u ++ rest) with
  | none => rfl
  | some r =>
    exfalso
    have he := stripLit_eq _ _ _ h
    rw [hl, List.append_assoc] at he
    have hq := run_unique (fun c => !isSpace c) u xw rest (sp :: x1 :: xr ++ r)
      (fun c hc => by simp [hu c hc]) (fun c hc => by simp [hxw c hc])
      (fun c cs hcs => by simp [hrest c (by rw [hcs]; simp)])
      (fun c cs hcs => by
        simp only [List.cons_append, List.cons.injEq] at hcs
        simp [← hcs.1, hsp])
      (by simpa using he)
    have hm : x1 ∈ rest := by rw [hq.2]; simp
    rw [hrest x1 hm] at hx1
    cases hx1

theorem anchored_word_none (l : String) (a : Char) (as : List Char) (hl : l.data = a :: as)
    (ha : isSpace a = false) (r : List Item) (w s : List Char)
    (hw : ∀ c ∈ w, isSpace c = true) (hs : ∀ x y, s = x :: y → isSpace x = false)
    (hstrip : stripLit l.data s = none) :
    FindStringSubmatch ⟨true, Item.plus isSpace :: Item.lit l :: r⟩ (String.mk (w ++ s))
      = none := by
  simp only [FindStringSubmatch, if_true]
  cases w with
  | nil =>
    cases s with
    | nil => simp [matchItems]
    | cons x y => simp [matchItems, hs x y rfl]
  | cons c w =>
    rw [List.cons_append, plus_space_run _ _
      (fun x y mark caps hx => lit_ws_none _ l a as hl ha r x y mark caps hx) c w s _ _
      (hw c (List.mem_cons_self _ _)) (fun d hd => hw d (List.mem_cons_of_mem _ hd)) hs]
    exact lit_none _ _ _ _ _ _ hstrip

/-- An unanchored pattern `\s+literal...` finds nothing in a line made of two label words,
a colon and a token when the literal starts none of them. -/
theorem search_enum_line (l : String) (a : Char) (as : List Char) (hl : l.data = a :: as)
    (ha : isSpace a = false) (r : List Item)
    (x1 : Char) (u1 : List Char) (x2 : Char) (u2 : List Char)
    (hu1 : ∀ c ∈ x1 :: u1, isSpace c = false) (hu2 : ∀ c ∈ x2 :: u2, isSpace c = false)
    (h1 : ∀ s, stripLit l.data (x1 :: u1 ++ s) = none)
    (h2 : ∀ s, stripLit l.data (x2 :: u2 ++ s) = none)
    (h3 : ∀ s, stripLit l.data (':' :: s) = none)
    (w1 w2 w3 t w4 : List Char)
    (hw1 : ∀ c ∈ w1, isSpace c = true) (hw2 : ∀ c ∈ w2, isSpace c = true)
    (hw3 : ∀ c ∈ w3, isSpace c = true) (hw4 : ∀ c ∈ w4, isSpace c = true)
    (ht : ∀ c ∈ t, isSpace c = false) (h4 : stripLit l.data (t ++ w4) = none) :
    search (Item.plus isSpace :: Item.lit l :: r)
        (w1 ++ ((x1 :: u1 ++ ' ' :: (x2 :: u2)) ++ (w2 ++ (':' :: (w3 ++ (t ++ w4))))))
      = none := by
  have hnil : stripLit l.data [] = none := by rw [hl]; rfl
  have hx1 : isSpace x1 = false := hu1 x1 (List.mem_cons_self _ _)
  have hx2 : isSpace x2 = false := hu2 x2 (List.mem_cons_self _ _)
  have e1 : (x1 :: u1 ++ ' ' :: (x2 :: u2)) ++ (w2 ++ (':' :: (w3 ++ (t ++ w4))))
      = (x1 :: u1) ++ ([' '] ++ ((x2 :: u2) ++ (w2 ++ ([':'] ++ (w3 ++ (t ++ w4)))))) := by
    simp
  rw [e1]
  rw [search_ws l a as hl ha r _ (fun x y h => by
      simp only [List.cons_append, List.cons.injEq] at h; rw [← h.1]; exact hx1) (h1 _) w1 hw1]
  rw [search_nonws _ _ (x1 :: u1) hu1]
  rw [search_ws l a as hl ha r _ (fun x y h => by
      simp only [List.cons_append, List.cons.injEq] at h; rw [← h.1]; exact hx2) (h2 _) [' ']
      (by intro c hc; rw [List.mem_singleton.mp hc]; decide)]
  rw [search_nonws _ _ (x2 :: u2) hu2]
  rw [search_ws l a as hl ha r _ (fun x y h => by
      simp only [List.cons_append, List.nil_append, List.cons.injEq] at h
      rw [← h.1]; decide)
      (show stripLit l.data ([':'] ++ _) = none from h3 _) w2 hw2]
  rw [search_nonws _ _ [':'] (by intro c hc; rw [List.mem_singleton.mp hc]; decide)]
  cases t with
  | nil =>
    have e2 : w3 ++ ([] ++ w4) = (w3 ++ w4) ++ [] := by simp
    rw [e2, search_ws l a as hl ha r [] (fun x y h => by cases h) hnil (w3 ++ w4)
      (fun c hc => by
        rcases List.mem_append.mp hc with h | h
        · exact hw3 c h
        · exact hw4 c h)]
    exact search_nil _
  | cons x t =>
    rw [search_ws l a as hl ha r _ (fun y ys h => by
        simp only [List.cons_append, List.cons.injEq] at h
        rw [← h.1]; exact ht x (List.mem_cons_self _ _)) h4 w3 hw3]
    rw [search_nonws _ _ (x :: t) ht]
    have e3 : w4 = w4 ++ [] := by simp
    rw [e3, search_ws l a as hl ha r [] (fun x y h => by cases h) hnil w4 hw4]
    exact search_nil _

theorem all_cons (p : Char → Bool) (x : Char) (xs : List Char) (hx : p x = true)
    (hxs : ∀ y ∈ xs, p y = true) : ∀ y ∈ x :: xs, p y = true := by
  intro y hy
  rcases List.mem_cons.mp hy with rfl | hy
  · exact hx
  · exact hxs y hy

theorem consumed_nil (s : List Char) : consumed s [] = String.mk s := by
  unfold consumed
  rw [List.length_nil, Nat.sub_zero, List.take_length]

theorem star_eol_ws (start : List Char) (w mark : List Char) (caps : List String)
    (hw : ∀ c ∈ w, isSpace c = true) :
    matchItems start [Item.star isSpace, Item.eol] w mark caps
      = some (consumed start [] :: caps) := by
  simp only [matchItems]
  have h := many_of_all isSpace
    (fun s1 => match s1 with
      | [] => some (consumed start [] :: caps)
      | _ :: _ => none) (consumed start [] :: caps) [] (by simp [many]) w hw
  simpa using h

theorem alt_ws_none (start : List Char) (a b : String) (xa : Char) (ra : List Char)
    (xb : Char) (rb : List Char) (hA : a.data = xa :: ra) (hB : b.data = xb :: rb)
    (hxa : isSpace xa = false) (hxb : isSpace xb = false) (r : List Item)
    (x : Char) (y mark : List Char) (caps : List String) (hx : isSpace x = true) :
    matchItems start (Item.gopen :: Item.alt a b :: r) (x :: y) mark caps = none := by
  have h1 : ¬ (xa = x) := by
    intro h
    rw [h, hx] at hxa
    cases hxa
  have h2 : ¬ (xb = x) := by
    intro h
    rw [h, hx] at hxb
    cases hxb
  simp [matchItems, hA, hB, stripLit, h1, h2]

/-- The pattern `^\s+label\s+:\s+(a|b)\s*$` matches a line `w1 label w2 : w3 t w4` with
the token `a`, or with the token `b` when `a` does not start `b`; group 1 is the token. -/
theorem enum_match (l a b : String) (xl : Char) (rl : List Char) (xa : Char)
    (ra : List Char) (xb : Char) (rb : List Char)
    (hL : l.data = xl :: rl) (hA : a.data = xa :: ra) (hB : b.data = xb :: rb)
    (hxl : isSpace xl = false) (hxa : isSpace xa = false) (hxb : isSpace xb = false)
    (c1 : Char) (w1 : List Char) (c2 : Char) (w2 : List Char) (c3 : Char) (w3 w4 t : List Char)
    (hw1 : ∀ c ∈ c1 :: w1, isSpace c = true) (hw2 : ∀ c ∈ c2 :: w2, isSpace c = true)
    (hw3 : ∀ c ∈ c3 :: w3, isSpace c = true) (hw4 : ∀ c ∈ w4, isSpace c = true)
    (ht : t = a.data ∨ (t = b.data ∧ stripLit a.data (b.data ++ w4) = none)) :
    FindStringSubmatch
        ⟨true, [Item.plus isSpace, Item.lit l, Item.plus isSpace, Item.lit ":",
          Item.plus isSpace, Item.gopen, Item.alt a b, Item.gclose, Item.star isSpace,
          Item.eol]⟩
        (enumLine (c1 :: w1) l (c2 :: w2) (c3 :: w3) t w4)
      = some [enumLine (c1 :: w1) l (c2 :: w2) (c3 :: w3) t w4, String.mk t] := by
  have hcolon : (":" : String).data = [':'] := rfl
  have hthead : ∀ x y, t ++ w4 = x :: y → isSpace x = false := by
    intro x y h
    rcases ht with ht | ⟨ht, _⟩
    · rw [ht, hA] at h
      simp only [List.cons_append, List.cons.injEq] at h
      rw [← h.1]; exact hxa
    · rw [ht, hB] at h
      simp only [List.cons_append, List.cons.injEq] at h
      rw [← h.1]; exact hxb
  simp only [FindStringSubmatch, if_true, enumLine, List.cons_append]
  rw [plus_space_run _ _
    (fun x y mark caps hx => lit_ws_none _ l xl rl hL hxl _ x y mark caps hx) c1 w1 _ _ _
    (hw1 c1 (List.mem_cons_self _ _)) (fun d hd => hw1 d (List.mem_cons_of_mem _ hd))
    (fun x y h => by
      rw [hL] at h
      simp only [List.cons_append, List.cons.injEq] at h
      rw [← h.1]; exact hxl)]
  rw [lit_append_eq]
  rw [plus_space_run _ _
    (fun x y mark caps hx => lit_ws_none _ ":" ':' [] hcolon (by decide) _ x y mark caps hx)
    c2 w2 _ _ _
    (hw2 c2 (List.mem_cons_self _ _)) (fun d hd => hw2 d (List.mem_cons_of_mem _ hd))
    (fun x y h => by
      simp only [List.cons.injEq] at h
      rw [← h.1]; decide)]
  have e1 : ':' :: c3 :: (w3 ++ (t ++ w4))
      = (":" : String).data ++ (c3 :: (w3 ++ (t ++ w4))) := rfl
  rw [e1, lit_append_eq]
  rw [plus_space_run _ _
    (fun x y mark caps hx => alt_ws_none _ a b xa ra xb rb hA hB hxa hxb _ x y mark caps hx)
    c3 w3 _ _ _
    (hw3 c3 (List.mem_cons_self _ _)) (fun d hd => hw3 d (List.mem_cons_of_mem _ hd)) hthead]
  rw [gopen_eq]
  rcases ht with ht | ⟨ht, hab⟩
  · rw [ht]
    rw [matchItems]
    simp only [stripLit_append]
    rw [gclose_eq, star_eol_ws _ _ _ _ hw4, consumed_append, consumed_nil]
    rfl
  · rw [ht]
    rw [matchItems]
    simp only [stripLit_append, hab]
    rw [gclose_eq, star_eol_ws _ _ _ _ hw4, consumed_append, consumed_nil]
    rfl


/-- The pattern `^\s+label\s+:\s+(a|b)\s*$` does not match a line `w1 label w2 : w3 t w4`
whose token `t` holds no whitespace and is neither `a` nor `b`. -/
theorem enum_no_match (l a b : String) (xl : Char) (rl : List Char) (xa : Char)
    (ra : List Char) (xb : Char) (rb : List Char)
    (hL : l.data = xl :: rl) (hA : a.data = xa :: ra) (hB : b.data = xb :: rb)
    (hxl : isSpace xl = false) (ha : ∀ c ∈ a.data, isSpace c = false)
    (hb : ∀ c ∈ b.data, isSpace c = false)
    (w1 w2 w3 w4 t : List Char)
    (hw1 : ∀ c ∈ w1, isSpace c = true) (hw2 : ∀ c ∈ w2, isSpace c = true)
    (hw3 : ∀ c ∈ w3, isSpace c = true) (hw4 : ∀ c ∈ w4, isSpace c = true)
    (ht : ∀ c ∈ t, isSpace c = false) (hta : t ≠ a.data) (htb : t ≠ b.data) :
    FindStringSubmatch
        ⟨true, [Item.plus isSpace, Item.lit l, Item.plus isSpace, Item.lit ":",
          Item.plus isSpace, Item.gopen, Item.alt a b, Item.gclose, Item.star isSpace,
          Item.eol]⟩
        (enumLine w1 l w2 w3 t w4)
      = none := by
  cases hm : FindStringSubmatch
      ⟨true, [Item.plus isSpace, Item.lit l, Item.plus isSpace, Item.lit ":",
        Item.plus isSpace, Item.gopen, Item.alt a b, Item.gclose, Item.star isSpace,
        Item.eol]⟩
      (enumLine w1 l w2 w3 t w4) with
  | none => rfl
  | some m =>
    exfalso
    simp only [FindStringSubmatch, if_true, enumLine] at hm
    obtain ⟨c, t1, s1, hl1, hc, ht1, hm⟩ := plus_some_split _ _ _ _ _ _ _ hm
    obtain ⟨s2, hs1, hm⟩ := lit_some_split _ _ _ _ _ _ _ hm
    obtain ⟨c2, t2, s3, hs2, hc2, ht2, hm⟩ := plus_some_split _ _ _ _ _ _ _ hm
    obtain ⟨s4, hs3, hm⟩ := lit_some_split _ _ _ _ _ _ _ hm
    obtain ⟨c3, t3, s5, hs4, hc3, ht3, hm⟩ := plus_some_split _ _ _ _ _ _ _ hm
    rw [gopen_eq] at hm
    obtain ⟨s6, hs5, hm⟩ := alt_some_split _ _ _ _ _ _ _ _ hm
    rw [gclose_eq] at hm
    obtain ⟨t4, s7, hs6, ht4, hm⟩ := star_some_split _ _ _ _ _ _ _ hm
    obtain ⟨hs7, _⟩ := eol_some _ _ _ _ _ _ hm
    have hlhead : ∀ (s : List Char) x y, l.data ++ s = x :: y → isSpace x = false := by
      intro s x y h
      rw [hL] at h
      simp only [List.cons_append, List.cons.injEq] at h
      rw [← h.1]; exact hxl
    -- the first run of whitespace
    have e1 : s1 = l.data ++ (w2 ++ (':' :: (w3 ++ (t ++ w4)))) :=
      (run_unique isSpace (c :: t1) w1 s1 _ (all_cons _ _ _ hc ht1) hw1
        (fun x y h => hlhead s2 x y (by rw [← hs1]; exact h)) (hlhead _)
        (by rw [List.cons_append, ← hl1])).2
    have e2 : s2 = w2 ++ (':' :: (w3 ++ (t ++ w4))) := by
      rw [hs1] at e1
      exact List.append_cancel_left e1
    -- the run before the colon
    have e3 : s3 = ':' :: (w3 ++ (t ++ w4)) :=
      (run_unique isSpace (c2 :: t2) w2 s3 _ (all_cons _ _ _ hc2 ht2) hw2
        (fun x y h => by
          rw [hs3] at h
          have hx : x = ':' := by
            have := congrArg List.head? h
            simpa using this.symm
          rw [hx]; decide)
        (fun x y h => by
          simp only [List.cons.injEq] at h
          rw [← h.1]; decide)
        (by rw [List.cons_append, ← hs2, e2])).2
    have e4 : s4 = w3 ++ (t ++ w4) := by
      rw [hs3] at e3
      have h : (':' :: s4) = ':' :: (w3 ++ (t ++ w4)) := e3
      exact List.tail_eq_of_cons_eq h
    -- the token
    have tok : ∃ k : String, (k = a ∨ k = b) ∧ s5 = k.data ++ s6 := by
      rcases hs5 with h | h
      · exact ⟨a, Or.inl rfl, h⟩
      · exact ⟨b, Or.inr rfl, h⟩
    obtain ⟨k, hk, hs5⟩ := tok
    have hkws : ∀ x ∈ k.data, isSpace x = false := by
      rcases hk with rfl | rfl
      · exact ha
      · exact hb
    have hkne : ∃ xk rk, k.data = xk :: rk := by
      rcases hk with rfl | rfl
      · exact ⟨xa, ra, hA⟩
      · exact ⟨xb, rb, hB⟩
    obtain ⟨xk, rk, hkd⟩ := hkne
    have hxk : isSpace xk = false := hkws xk (by rw [hkd]; simp)
    have e5 : c3 :: (t3 ++ (k.data ++ s6)) = w3 ++ (t ++ w4) := by
      rw [← hs5, ← hs4, e4]
    cases t with
    | nil =>
      have hmem : xk ∈ w3 ++ ([] ++ w4) := by
        rw [← e5, hkd]
        simp
      have hsp : isSpace xk = true := by
        rcases List.mem_append.mp hmem with h | h
        · exact hw3 xk h
        · exact hw4 xk (by simpa using h)
      rw [hsp] at hxk
      cases hxk
    | cons x t =>
      have e6 : k.data ++ s6 = (x :: t) ++ w4 :=
        (run_unique isSpace (c3 :: t3) w3 (k.data ++ s6) _ (all_cons _ _ _ hc3 ht3) hw3
          (fun y ys h => by
            rw [hkd] at h
            simp only [List.cons_append, List.cons.injEq] at h
            rw [← h.1]; exact hxk)
          (fun y ys h => by
            simp only [List.cons_append, List.cons.injEq] at h
            rw [← h.1]; exact ht x (List.mem_cons_self _ _))
          (by rw [List.cons_append]; exact e5)).2
      have e7 : k.data = x :: t :=
        (run_unique (fun c => !isSpace c) k.data (x :: t) s6 w4
          (fun y hy => by simp [hkws y hy]) (fun y hy => by simp [ht y hy])
          (fun y ys h => by
            have hy : y ∈ t4 := by
              rw [hs6, hs7, List.append_nil] at h
              rw [h]; simp
            simp [ht4 y hy])
          (fun y ys h => by simp [hw4 y (by rw [h]; simp)])
          e6).1
      rcases hk with rfl | rfl
      · exact hta e7.symm
      · exact htb e7.symm

/-- On a `Link Status` line with a token that holds no whitespace, none of the patterns
of lines 22 to 28 other than the one of the link status rule matches. -/
theorem link_line_rules (w1 w2 w3 w4 t : List Char)
    (hw1 : ∀ c ∈ w1, isSpace c = true) (hw2 : ∀ c ∈ w2, isSpace c = true)
    (hw3 : ∀ c ∈ w3, isSpace c = true) (hw4 : ∀ c ∈ w4, isSpace c = true)
    (ht : ∀ c ∈ t, isSpace c = false) :
    FindStringSubmatch newIfRegexp (enumLine w1 "Link Status" w2 w3 t w4) = none
      ∧ FindStringSubmatch descRegexp (enumLine w1 "Link Status" w2 w3 t w4) = none
      ∧ FindStringSubmatch macRegexp (enumLine w1 "Link Status" w2 w3 t w4) = none
      ∧ FindStringSubmatch portEnabledRegexp (enumLine w1 "Link Status" w2 w3 t w4) = none
      ∧ FindStringSubmatch bytesRegexp (enumLine w1 "Link Status" w2 w3 t w4) = none
      ∧ FindStringSubmatch unicastRegexp (enumLine w1 "Link Status" w2 w3 t w4) = none := by
  have hhead : ∀ (s : List Char) x y, ("Link Status" : String).data ++ s = x :: y →
      isSpace x = false := by
    intro s x y h
    have hx : x = 'L' := by
      have := congrArg List.head? h
      simpa using this.symm
    rw [hx]; decide
  refine ⟨?_, ?_, ?_, ?_, ?_, ?_⟩
  · exact anchored_word_none "Status and Counters - Port Counters for port " 'S' _ rfl
      (by decide) _ w1 _ hw1 (hhead _) (by simp [stripLit])
  · exact anchored_word_none "Name" 'N' _ rfl (by decide) _ w1 _ hw1 (hhead _)
      (by simp [stripLit])
  · exact anchored_word_none "MAC Address" 'M' _ rfl (by decide) _ w1 _ hw1 (hhead _)
      (by simp [stripLit])
  · exact anchored_word_none "Port Enabled" 'P' _ rfl (by decide) _ w1 _ hw1 (hhead _)
      (by simp [stripLit])
  · simp only [FindStringSubmatch, bytesRegexp, Bool.false_eq_true, if_false, enumLine]
    exact search_enum_line "Bytes Rx" 'B' _ rfl (by decide) _ 'L' ['i', 'n', 'k'] 'S' ['t', 'a', 't', 'u', 's'] (by decide)
      (by decide) (fun s => by simp [stripLit]) (fun s => by simp [stripLit])
      (fun s => by simp [stripLit]) w1 w2 w3 t w4 hw1 hw2 hw3 hw4 ht
      (word_no_match "Bytes Rx" ['B', 'y', 't', 'e', 's'] ' ' 'R' ['x'] rfl (by decide)
        (by decide) (by decide) t w4 ht hw4)
  · simp only [FindStringSubmatch, unicastRegexp, Bool.false_eq_true, if_false, enumLine]
    exact search_enum_line "Unicast Rx" 'U' _ rfl (by decide) _ 'L' ['i', 'n', 'k'] 'S' ['t', 'a', 't', 'u', 's'] (by decide)
      (by decide) (fun s => by simp [stripLit]) (fun s => by simp [stripLit])
      (fun s => by simp [stripLit]) w1 w2 w3 t w4 hw1 hw2 hw3 hw4 ht
      (word_no_match "Unicast Rx" ['U', 'n', 'i', 'c', 'a', 's', 't'] ' ' 'R' ['x'] rfl
        (by decide) (by decide) (by decide) t w4 ht hw4)

/-- On a `Port Enabled` line with a token that holds no whitespace, none of the patterns
of lines 22 to 28 other than the one of the port enabled rule matches. -/
theorem port_line_rules (w1 w2 w3 w4 t : List Char)
    (hw1 : ∀ c ∈ w1, isSpace c = true) (hw2 : ∀ c ∈ w2, isSpace c = true)
    (hw3 : ∀ c ∈ w3, isSpace c = true) (hw4 : ∀ c ∈ w4, isSpace c = true)
    (ht : ∀ c ∈ t, isSpace c = false) :
    FindStringSubmatch newIfRegexp (enumLine w1 "Port Enabled" w2 w3 t w4) = none
      ∧ FindStringSubmatch descRegexp (enumLine w1 "Port Enabled" w2 w3 t w4) = none
      ∧ FindStringSubmatch macRegexp (enumLine w1 "Port Enabled" w2 w3 t w4) = none
      ∧ FindStringSubmatch linkStatusRegexp (enumLine w1 "Port Enabled" w2 w3 t w4) = none
      ∧ FindStringSubmatch bytesRegexp (enumLine w1 "Port Enabled" w2 w3 t w4) = none
      ∧ FindStringSubmatch unicastRegexp (enumLine w1 "Port Enabled" w2 w3 t w4) = none := by
  have hhead : ∀ (s : List Char) x y, ("Port Enabled" : String).data ++ s = x :: y →
      isSpace x = false := by
    intro s x y h
    have hx : x = 'P' := by
      have := congrArg List.head? h
      simpa using this.symm
    rw [hx]; decide
  refine ⟨?_, ?_, ?_, ?_, ?_, ?_⟩
  · exact anchored_word_none "Status and Counters - Port Counters for port " 'S' _ rfl
      (by decide) _ w1 _ hw1 (hhead _) (by simp [stripLit])
  · exact anchored_word_none "Name" 'N' _ rfl (by decide) _ w1 _ hw1 (hhead _)
      (by simp [stripLit])
  · exact anchored_word_none "MAC Address" 'M' _ rfl (by decide) _ w1 _ hw1 (hhead _)
      (by simp [stripLit])
  · exact anchored_word_none "Link Status" 'L' _ rfl (by decide) _ w1 _ hw1 (hhead _)
      (by simp [stripLit])
  · simp only [FindStringSubmatch, bytesRegexp, Bool.false_eq_true, if_false, enumLine]
    exact search_enum_line "Bytes Rx" 'B' _ rfl (by decide) _ 'P' ['o', 'r', 't'] 'E' ['n', 'a', 'b', 'l', 'e', 'd'] (by decide)
      (by decide) (fun s => by simp [stripLit]) (fun s => by simp [stripLit])
      (fun s => by simp [stripLit]) w1 w2 w3 t w4 hw1 hw2 hw3 hw4 ht
      (word_no_match "Bytes Rx" ['B', 'y', 't', 'e', 's'] ' ' 'R' ['x'] rfl (by decide)
        (by decide) (by decide) t w4 ht hw4)
  · simp only [FindStringSubmatch, unicastRegexp, Bool.false_eq_true, if_false, enumLine]
    exact search_enum_line "Unicast Rx" 'U' _ rfl (by decide) _ 'P' ['o', 'r', 't'] 'E' ['n', 'a', 'b', 'l', 'e', 'd'] (by decide)
      (by decide) (fun s => by simp [stripLit]) (fun s => by simp [stripLit])
      (fun s => by simp [stripLit]) w1 w2 w3 t w4 hw1 hw2 hw3 hw4 ht
      (word_no_match "Unicast Rx" ['U', 'n', 'i', 'c', 'a', 's', 't'] ' ' 'R' ['x'] rfl
        (by decide) (by decide) (by decide) t w4 ht hw4)

/-! ## The call of `Parse` -/

theorem escapeLiteral_T : escapeLiteral 'T' = none := by decide

theorem escapeLiteral_slash : escapeLiteral '/' = some '/' := by decide

theorem Compile_BandMcast : Compile BandMcastPattern = Except.error (invalidEscape 'T') := by
  rfl

theorem BandMcastRegexp_panics :
    BandMcastRegexp = Outcome.panics (panicMessage BandMcastPattern (invalidEscape 'T')) := by
  rfl

section Call

variable {F : Type} [Zero F] [DecidableEq F]

omit [DecidableEq F] in
theorem Parse_unsupported (im : Imports F)
    (after : Regexp → String → Outcome (List (Interface F) × Option String))
    (ostype output : String) (h : ostype ≠ im.ArubaSwitch) :
    Parse im after ostype output
      = Outcome.returns ([], some ("'show interface' is not implemented for " ++ ostype)) := by
  unfold Parse
  rw [if_pos h]

omit [DecidableEq F] in
theorem Parse_panics (im : Imports F)
    (after : Regexp → String → Outcome (List (Interface F) × Option String))
    (output : String) :
    Parse im after im.ArubaSwitch output
      = Outcome.panics (panicMessage BandMcastPattern (invalidEscape 'T')) := by
  unfold Parse
  rw [if_neg (by simp)]
  rfl

omit [DecidableEq F] in
theorem Parse_returned (im : Imports F)
    (after : Regexp → String → Outcome (List (Interface F) × Option String))
    (ostype output : String) :
    returned (Parse im after ostype output) = [] := by
  by_cases h : ostype = im.ArubaSwitch
  · subst h
    rw [Parse_panics]
    rfl
  · rw [Parse_unsupported im after ostype output h]
    rfl

end Call

/-! ## The claims -/

section Claims

variable {F : Type} [Zero F] [DecidableEq F]

/-- C1 (the code departs from the claim). On a text of the supported kind with no boundary
line `ParseVlans` succeeds, but the sequence it returns is not empty: the final
`append(items, current)` is not guarded, so it returns exactly one record, `Interface{}`. -/
theorem vlans_no_boundary_one_record (im : Imports F) (text : String)
    (h : ∀ l ∈ Split text, isVlanBoundary l = false) :
    ParseVlans im im.ArubaSwitch text = ([{}], none) := by
  rw [ParseVlans_supported, fold_span _ _ _ _ _ h, vlanUpdate_fold_zero]
  rfl

/-- C1, at the empty text: `ParseVlans` returns the one-element sequence `[Interface{}]`. -/
theorem vlans_no_boundary_one_record_witness :
    (∀ l ∈ Split "", isVlanBoundary l = false)
      ∧ ParseVlans goImports goImports.ArubaSwitch "" = ([{}], none) :=
  ⟨by decide, vlans_no_boundary_one_record goImports "" (by decide)⟩

/-- C2 (the code departs from the claim). `ParseVlans` returns an error exactly when the
device kind is not `rpc.ArubaSwitch`, and for the supported kind its error is nil on every
text. For every other kind `Parse` and `ParseVlans` return the nil sequence and an error
that names the kind, whatever the text. For the supported kind `Parse` returns neither
records nor a nil error: on every text the call panics at line 29, where
`regexp.MustCompile` rejects the escape `\T`. -/
theorem unsupported_error_supported_panic (im : Imports F)
    (after : Regexp → String → Outcome (List (Interface F) × Option String))
    (ostype text : String) :
    ((ParseVlans im ostype text).2.isSome = true ↔ ostype ≠ im.ArubaSwitch)
    ∧ (ostype ≠ im.ArubaSwitch →
        Parse im after ostype text
          = Outcome.returns ([], some ("'show interface' is not implemented for " ++ ostype))
        ∧ ParseVlans im ostype text
            = ([], some ("'show vlans' is not implemented for " ++ ostype)))
    ∧ (ParseVlans im im.ArubaSwitch text).2 = none
    ∧ Parse im after im.ArubaSwitch text
        = Outcome.panics (panicMessage BandMcastPattern (invalidEscape 'T')) := by
  refine ⟨?_, ?_, ?_, Parse_panics im after text⟩
  · by_cases h : ostype = im.ArubaSwitch
    · subst h
      simp [ParseVlans]
    · simp [ParseVlans, h]
  · intro h
    exact ⟨Parse_unsupported im after ostype text h, by simp [ParseVlans, h]⟩
  · simp [ParseVlans]

/-- C2, at an unsupported kind and a text that holds a whole port block. -/
theorem unsupported_error_supported_panic_witness :
    "ArubaController" ≠ goImports.ArubaSwitch
      ∧ Parse goImports (fun _ _ => Outcome.returns ([], none)) "ArubaController"
            "  Status and Counters - Port Counters for port 1"
          = Outcome.returns ([], some "'show interface' is not implemented for ArubaController") :=
  ⟨by decide,
    ((unsupported_error_supported_panic goImports (fun _ _ => Outcome.returns ([], none))
      "ArubaController" "  Status and Counters - Port Counters for port 1").2.1
        (by decide)).1⟩

/-- C4. `ParseVlans` ignores every line before the first boundary line: if no line of
`pre` is a boundary line, the result for `pre`, a line break and `rest` is the result for
`rest` (for every `rest`, in particular one that starts with a boundary line). -/
theorem vlans_ignore_before_boundary (im : Imports F) (ostype pre rest : String)
    (hpre : ∀ l ∈ Split pre, isVlanBoundary l = false) :
    ParseVlans im ostype (pre ++ "\n" ++ rest) = ParseVlans im ostype rest := by
  unfold ParseVlans
  rw [Split_append, List.foldl_append, vlanStep_fun, fold_span _ _ _ _ _ hpre,
    vlanUpdate_fold_zero]

/-- C4, with a line before the boundary that matches the `bytes input` pattern. -/
theorem vlans_ignore_before_boundary_witness :
    (∀ l ∈ Split " Total 9 packets, 900 bytes input", isVlanBoundary l = false)
      ∧ FindStringSubmatch inputBytesRegexp " Total 9 packets, 900 bytes input"
          = some [" Total 9 packets, 900 bytes input", "900"]
      ∧ ParseVlans goImports "ArubaSwitch"
          (" Total 9 packets, 900 bytes input" ++ "\n"
            ++ "vlan10.1 (100)\n Total 5 packets, 500 bytes input")
        = ParseVlans goImports "ArubaSwitch"
            "vlan10.1 (100)\n Total 5 packets, 500 bytes input"
      ∧ ParseVlans goImports "ArubaSwitch"
            "vlan10.1 (100)\n Total 5 packets, 500 bytes input"
        = ([{ Name := "vlan10.1", InputBytes := 500 }], none) :=
  ⟨by decide, by decide,
    vlans_ignore_before_boundary goImports "ArubaSwitch" " Total 9 packets, 900 bytes input"
      "vlan10.1 (100)\n Total 5 packets, 500 bytes input" (by decide),
    by decide⟩

/-- C5 (the code departs from the claim). For a text of the supported kind whose lines are
n >= 1 blocks, each a boundary line followed by lines that are not boundary lines,
`ParseVlans` returns exactly n records and no error, and the names of the records are, in
order, the names captured from the boundary lines: nothing is reordered, and equal names
are not merged. `Parse` returns no record for any text of the supported kind: the call
panics at line 29. -/
theorem vlan_names_in_block_order (im : Imports F)
    (after : Regexp → String → Outcome (List (Interface F) × Option String))
    (text : String) (blk : String × List String) (blocks : List (String × List String))
    (hl : Split text = blockLines (blk :: blocks))
    (hw : ∀ x ∈ blk :: blocks, isVlanBoundary x.1 = true ∧ ∀ l ∈ x.2, isVlanBoundary l = false) :
    (ParseVlans im im.ArubaSwitch text).1.length = (blk :: blocks).length
    ∧ (ParseVlans im im.ArubaSwitch text).1.map (fun r => r.Name)
        = (blk :: blocks).map (fun x => vlanName x.1)
    ∧ (ParseVlans im im.ArubaSwitch text).2 = none
    ∧ (∀ t : String, Parse im after im.ArubaSwitch t
        = Outcome.panics (panicMessage BandMcastPattern (invalidEscape 'T'))) := by
  rw [ParseVlans_blocks im text blk blocks hl hw]
  refine ⟨by simp, ?_, rfl, fun t => Parse_panics im after t⟩
  simp only [List.map_map]
  apply List.map_congr_left
  intro x hx
  exact vlanUpdate_fold_name im x.2 _

/-- C5, on three vlan blocks of which the first and the last carry the same name. -/
theorem vlan_names_in_block_order_witness :
    (ParseVlans goImports goImports.ArubaSwitch
        ("vlan10.1 (100)\n Total 5 packets, 500 bytes input\n"
          ++ "vlan20.1 (200)\n"
          ++ "vlan10.1 (100)\n Total 5 packets, 7 bytes output")).1.map
        (fun r => r.Name)
      = ["vlan10.1", "vlan20.1", "vlan10.1"] :=
  (vlan_names_in_block_order goImports (fun _ _ => Outcome.returns ([], none))
      ("vlan10.1 (100)\n Total 5 packets, 500 bytes input\n"
        ++ "vlan20.1 (200)\n"
        ++ "vlan10.1 (100)\n Total 5 packets, 7 bytes output")
      ("vlan10.1 (100)", [" Total 5 packets, 500 bytes input"])
      [("vlan20.1 (200)", []),
        ("vlan10.1 (100)", [" Total 5 packets, 7 bytes output"])]
      (by decide) (by decide)).2.1.trans (by decide)

/-- C6 (the code departs from the claim). For a text of the supported kind all of whose
lines are boundary lines, `ParseVlans` returns one record per line, in order, and each
record has its name set to the name captured from its line and every other attribute at
its default. `Parse` returns no record for any text of the supported kind: the call panics
at line 29. -/
theorem vlan_boundary_only_names_only (im : Imports F)
    (after : Regexp → String → Outcome (List (Interface F) × Option String))
    (text : String) (h : ∀ l ∈ Split text, isVlanBoundary l = true) :
    ParseVlans im im.ArubaSwitch text
        = ((Split text).map (fun l => ({ Name := vlanName l } : Interface F)), none)
    ∧ (∀ t : String, Parse im after im.ArubaSwitch t
        = Outcome.panics (panicMessage BandMcastPattern (invalidEscape 'T'))) := by
  refine ⟨?_, fun t => Parse_panics im after t⟩
  cases hs : Split text with
  | nil => exact absurd hs (Split_ne_nil text)
  | cons l0 ls =>
    have hl : Split text
        = blockLines ((l0, ([] : List String)) :: ls.map (fun l => (l, ([] : List String)))) := by
      rw [hs]
      exact (blockLines_singletons (l0 :: ls)).symm
    have hw : ∀ x ∈ (l0, ([] : List String)) :: ls.map (fun l => (l, ([] : List String))),
        isVlanBoundary x.1 = true ∧ ∀ l ∈ x.2, isVlanBoundary l = false := by
      intro x hx
      have hx2 : x ∈ (l0 :: ls).map (fun l => (l, ([] : List String))) := by simpa using hx
      obtain ⟨y, hy, rfl⟩ := List.mem_map.mp hx2
      exact ⟨h y (by rw [hs]; exact hy), by simp⟩
    rw [ParseVlans_blocks im text _ _ hl hw]
    simp [List.map_map, Function.comp_def]

/-- C6, on two vlan boundary lines. -/
theorem vlan_boundary_only_names_only_witness :
    (∀ l ∈ Split "vlan10.1 (100)\nge-0/0/1.5 (:7) up", isVlanBoundary l = true)
      ∧ ParseVlans goImports goImports.ArubaSwitch "vlan10.1 (100)\nge-0/0/1.5 (:7) up"
          = ([{ Name := "vlan10.1" }, { Name := "ge-0/0/1.5" }], none) :=
  ⟨by decide,
    ((vlan_boundary_only_names_only goImports (fun _ _ => Outcome.returns ([], none))
      "vlan10.1 (100)\nge-0/0/1.5 (:7) up" (by decide)).1).trans (by decide)⟩

/-- C7 (the code departs from the claim). Last match wins in `ParseVlans`. Take any text of
the supported kind whose lines are lines `pre` without a boundary line followed by blocks,
and any of its blocks, with boundary line `b` and span `a ++ line :: c`. If `line` fires a
rule (input bytes or output bytes) and no line of `c` fires that rule, the record emitted
for the block (the one followed by as many records as blocks follow) has the name of `b`
and has, in the attribute of the rule, the value captured from `line`, whatever earlier
lines of the span assigned. `Parse` emits no record for any text of the supported kind: the
call panics at line 29. -/
theorem vlan_last_match_wins (im : Imports F)
    (after : Regexp → String → Outcome (List (Interface F) × Option String))
    (text : String) (pre : List String)
    (front back : List (String × List String)) (b line : String) (a c : List String)
    (rule : VlanRule)
    (hl : Split text = pre ++ blockLines (front ++ (b, a ++ line :: c) :: back))
    (hpre : ∀ l ∈ pre, isVlanBoundary l = false)
    (hw : ∀ x ∈ front ++ (b, a ++ line :: c) :: back,
      isVlanBoundary x.1 = true ∧ ∀ l ∈ x.2, isVlanBoundary l = false)
    (hf : vlanRule line = some rule) (hc : ∀ l ∈ c, vlanRule l ≠ some rule) :
    (∃ recs r tail, (ParseVlans im im.ArubaSwitch text).1 = recs ++ r :: tail
      ∧ tail.length = back.length ∧ r.Name = vlanName b
      ∧ vlanAttr rule r = vlanCapture im rule line)
    ∧ (∀ t : String, Parse im after im.ArubaSwitch t
        = Outcome.panics (panicMessage BandMcastPattern (invalidEscape 'T'))) := by
  refine ⟨?_, fun t => Parse_panics im after t⟩
  obtain ⟨recs, hrec⟩ := ParseVlans_pre_blocks im text pre _ (by simp) hl hpre hw
  have hx := hw (b, a ++ line :: c) (by simp)
  obtain ⟨hn, hv⟩ := vlan_span_last im b a c line rule hx.1 hx.2 hf hc
  refine ⟨recs ++ front.map
      (fun x => x.2.foldl (vlanUpdate im) ({ Name := vlanName x.1 } : Interface F)),
    (a ++ line :: c).foldl (vlanUpdate im) ({ Name := vlanName b } : Interface F),
    back.map (fun x => x.2.foldl (vlanUpdate im) ({ Name := vlanName x.1 } : Interface F)),
    ?_, by simp, hn, hv⟩
  rw [hrec]
  simp

/-- C7, on a vlan block with two `bytes input` lines: the record has the later value. -/
theorem vlan_last_match_wins_witness :
    (∃ recs r tail,
      (ParseVlans goImports goImports.ArubaSwitch
          ("vlan10.1 (100)\n Total 5 packets, 1 bytes input\n"
            ++ " Total 5 packets, 2 bytes input\nvlan20.1 (200)")).1
        = recs ++ r :: tail
      ∧ tail.length = [("vlan20.1 (200)", ([] : List String))].length
      ∧ r.Name = vlanName "vlan10.1 (100)"
      ∧ vlanAttr VlanRule.inputBytes r
          = vlanCapture goImports VlanRule.inputBytes " Total 5 packets, 2 bytes input")
    ∧ vlanCapture goImports VlanRule.inputBytes " Total 5 packets, 2 bytes input" = ([], [2])
    ∧ ParseVlans goImports goImports.ArubaSwitch
          ("vlan10.1 (100)\n Total 5 packets, 1 bytes input\n"
            ++ " Total 5 packets, 2 bytes input\nvlan20.1 (200)")
        = ([{ Name := "vlan10.1", InputBytes := 2 }, { Name := "vlan20.1" }], none) :=
  ⟨(vlan_last_match_wins goImports (fun _ _ => Outcome.returns ([], none))
      ("vlan10.1 (100)\n Total 5 packets, 1 bytes input\n"
        ++ " Total 5 packets, 2 bytes input\nvlan20.1 (200)")
      [] [] [("vlan20.1 (200)", [])]
      "vlan10.1 (100)" " Total 5 packets, 2 bytes input"
      [" Total 5 packets, 1 bytes input"] [] VlanRule.inputBytes
      (by decide) (by decide) (by decide) (by decide) (by decide)).1,
    by decide, by decide⟩

/-- C8 (the code departs from the claim). Scenario A. The patterns of the boundary rule,
the `Name` rule, the `Link Status` rule and the bytes rule capture "1/1", "uplink", "Up",
"100" and "200" from the four lines of the scenario, but `Parse` does not return the
record: on the text of the scenario the call panics at line 29 and hands no record to its
caller. -/
theorem scenario_A_panics {G : Type} [Zero G] (im : Imports G)
    (after : Regexp → String → Outcome (List (Interface G) × Option String)) :
    FindStringSubmatch newIfRegexp "  Status and Counters - Port Counters for port 1/1"
        = some ["  Status and Counters - Port Counters for port 1/1", "1/1"]
    ∧ FindStringSubmatch descRegexp "  Name  : uplink" = some ["  Name  : uplink", "uplink"]
    ∧ FindStringSubmatch linkStatusRegexp "  Link Status  : Up"
        = some ["  Link Status  : Up", "Up"]
    ∧ FindStringSubmatch bytesRegexp "  Bytes Rx  : 100  Bytes Tx  : 200"
        = some ["  Bytes Rx  : 100  Bytes Tx  : 200", "100", "200"]
    ∧ Parse im after im.ArubaSwitch
        ("  Status and Counters - Port Counters for port 1/1\n  Name  : uplink\n"
          ++ "  Link Status  : Up\n  Bytes Rx  : 100  Bytes Tx  : 200")
      = Outcome.panics (panicMessage BandMcastPattern (invalidEscape 'T'))
    ∧ returned (Parse im after im.ArubaSwitch
        ("  Status and Counters - Port Counters for port 1/1\n  Name  : uplink\n"
          ++ "  Link Status  : Up\n  Bytes Rx  : 100  Bytes Tx  : 200")) = [] :=
  ⟨by decide, by decide, by decide, by decide, Parse_panics im after _,
    Parse_returned im after _ _⟩

/-- C9 as stated fails: on the text whose lines are "vlan10.1 (100)",
"Total 5 packets, 500 bytes input" and "Total 5 packets, 600 bytes output" the two field
patterns, which start with `^\s+`, match nothing, and the one record has no byte counter. -/
theorem scenario_B_unindented :
    ParseVlans goImports goImports.ArubaSwitch
        "vlan10.1 (100)\nTotal 5 packets, 500 bytes input\nTotal 5 packets, 600 bytes output"
      = ([{ Name := "vlan10.1" }], none)
    ∧ ParseVlans goImports goImports.ArubaSwitch
        "vlan10.1 (100)\nTotal 5 packets, 500 bytes input\nTotal 5 packets, 600 bytes output"
      ≠ ([{ Name := "vlan10.1", InputBytes := 500, OutputBytes := 600 }], none) := by
  decide

/-- C9, amended. Scenario B with the two `Total` lines indented: for a vlan-traffic text
whose lines are "vlan10.1 (100)", then "Total 5 packets, 500 bytes input" behind one or
more whitespace characters, then "Total 5 packets, 600 bytes output" behind one or more
whitespace characters, `ParseVlans` returns exactly one record, with name "vlan10.1",
input_bytes the conversion of "500", output_bytes the conversion of "600" and every other
field zero. -/
theorem scenario_B_indented (im : Imports F) (text : String) (w1 w2 : List Char)
    (h1 : w1 ≠ []) (hw1 : ∀ c ∈ w1, isSpace c = true)
    (h2 : w2 ≠ []) (hw2 : ∀ c ∈ w2, isSpace c = true)
    (hs : Split text = ["vlan10.1 (100)",
      String.mk (w1 ++ "Total 5 packets, 500 bytes input".data),
      String.mk (w2 ++ "Total 5 packets, 600 bytes output".data)]) :
    ParseVlans im im.ArubaSwitch text
      = ([{ Name := "vlan10.1", InputBytes := im.Str2float64 "500",
            OutputBytes := im.Str2float64 "600" }], none) := by
  obtain ⟨m1, hm1⟩ := indented_input w1 h1 hw1
  obtain ⟨m2, hm2, hm3⟩ := indented_output w2 h2 hw2
  have hb1 : isVlanBoundary (String.mk (w1 ++ "Total 5 packets, 500 bytes input".data))
      = false := by
    cases w1 with
    | nil => exact absurd rfl h1
    | cons c cs => exact space_first_not_vlan_boundary c _ (hw1 c (List.mem_cons_self _ _))
  have hb2 : isVlanBoundary (String.mk (w2 ++ "Total 5 packets, 600 bytes output".data))
      = false := by
    cases w2 with
    | nil => exact absurd rfl h2
    | cons c cs => exact space_first_not_vlan_boundary c _ (hw2 c (List.mem_cons_self _ _))
  have hw : ∀ x ∈ [("vlan10.1 (100)",
      [String.mk (w1 ++ "Total 5 packets, 500 bytes input".data),
        String.mk (w2 ++ "Total 5 packets, 600 bytes output".data)])],
      isVlanBoundary x.1 = true ∧ ∀ z ∈ x.2, isVlanBoundary z = false := by
    intro x hx
    simp only [List.mem_singleton] at hx
    subst hx
    have hbd : isVlanBoundary "vlan10.1 (100)" = true := by decide
    refine ⟨hbd, ?_⟩
    intro z hz
    simp only [List.mem_cons, List.mem_singleton, List.not_mem_nil, or_false] at hz
    rcases hz with rfl | rfl
    · exact hb1
    · exact hb2
  have hname : vlanName "vlan10.1 (100)" = "vlan10.1" := by decide
  have hne : ({ Name := "vlan10.1" } : Interface F) ≠ {} := named_ne_zero _ (by decide)
  have hne2 : ({ Name := "vlan10.1", InputBytes := im.Str2float64 "500" } : Interface F)
      ≠ {} := ne_zero_of_name _ (show "vlan10.1" ≠ "" by decide)
  rw [ParseVlans_blocks im text _ [] (by rw [hs]; rfl) hw]
  simp only [List.map_cons, List.map_nil, List.foldl_cons, List.foldl_nil, hname]
  have e1 : vlanUpdate im ({ Name := "vlan10.1" } : Interface F)
      (String.mk (w1 ++ "Total 5 packets, 500 bytes input".data))
      = { Name := "vlan10.1", InputBytes := im.Str2float64 "500" } := by
    unfold vlanUpdate vlanFields
    rw [if_neg hne, hm1]
    simp [sub]
  have e2 : vlanUpdate im ({ Name := "vlan10.1", InputBytes := im.Str2float64 "500" }
        : Interface F)
      (String.mk (w2 ++ "Total 5 packets, 600 bytes output".data))
      = { Name := "vlan10.1", InputBytes := im.Str2float64 "500",
          OutputBytes := im.Str2float64 "600" } := by
    unfold vlanUpdate vlanFields
    rw [if_neg hne2, hm3, hm2]
    simp [sub]
  rw [e1, e2]

/-- C9, amended, with one space before each `Total` line and decimal counters. -/
theorem scenario_B_indented_witness :
    ParseVlans goImports goImports.ArubaSwitch
        ("vlan10.1 (100)\n Total 5 packets, 500 bytes input\n"
          ++ " Total 5 packets, 600 bytes output")
      = ([{ Name := "vlan10.1", InputBytes := 500, OutputBytes := 600 }], none) :=
  (scenario_B_indented goImports
    ("vlan10.1 (100)\n Total 5 packets, 500 bytes input\n"
      ++ " Total 5 packets, 600 bytes output")
    [' '] [' '] (by decide) (by decide) (by decide) (by decide) (by decide)).trans (by decide)

/-- C10 (the code departs from the claim). The five patterns that start with `^\s+` match
no line that starts with a character other than whitespace. The bytes and unicast patterns
have `$` but no `^`: they match a line whose first character is not whitespace, with other
text before the label, and capture its two numbers. -/
theorem counter_patterns_not_anchored :
    (∀ line : String, (∀ c cs, line.data = c :: cs → isSpace c = false) →
        FindStringSubmatch newIfRegexp line = none ∧ FindStringSubmatch descRegexp line = none
          ∧ FindStringSubmatch macRegexp line = none
          ∧ FindStringSubmatch linkStatusRegexp line = none
          ∧ FindStringSubmatch portEnabledRegexp line = none)
    ∧ isSpace 'x' = false
    ∧ FindStringSubmatch bytesRegexp "x  Bytes Rx  : 1  Bytes Tx  : 2"
        = some ["  Bytes Rx  : 1  Bytes Tx  : 2", "1", "2"]
    ∧ FindStringSubmatch unicastRegexp "x  Unicast Rx  : 3  Unicast Tx  : 4"
        = some ["  Unicast Rx  : 3  Unicast Tx  : 4", "3", "4"] :=
  ⟨fun line h => anchored_rules_none line h, by decide, by decide, by decide⟩

/-- C10, on a `Name` line with a character before the indentation: the pattern of the
`Name` rule, which has `^`, does not match it. -/
theorem counter_patterns_not_anchored_witness :
    (∀ c cs, "x  Name  : uplink".data = c :: cs → isSpace c = false)
      ∧ FindStringSubmatch descRegexp "x  Name  : uplink" = none :=
  ⟨fun c cs h => by cases h; decide,
    (counter_patterns_not_anchored.1 "x  Name  : uplink"
      (fun c cs h => by cases h; decide)).2.1⟩

/-- C12 (the code departs from the claim). The patterns read the enum tokens
case-sensitively. Take a line `w1 Link Status w2 : w3 t w4` (resp.
`w1 Port Enabled w2 : w3 t w4`) where `w1`, `w2`, `w3` are non-empty runs of whitespace,
`w4` is a run of whitespace and the token `t` holds no whitespace. If `t` is neither "Up"
nor "Down" (resp. neither "Yes" nor "No"), none of the seven patterns that compile matches
the line; if `t` is one of the two tokens, the pattern of the link status (resp. port
enabled) rule matches with `t` as its group, and no pattern that the loop tries before it
matches. But `Parse` neither keeps nor sets an attribute, and the call does not succeed:
for the supported kind it panics at line 29 on every text. -/
theorem enum_patterns_case_sensitive {G : Type} [Zero G] (im : Imports G)
    (after : Regexp → String → Outcome (List (Interface G) × Option String))
    (w1 w2 w3 w4 t : List Char)
    (h1 : w1 ≠ [] ∧ ∀ c ∈ w1, isSpace c = true) (h2 : w2 ≠ [] ∧ ∀ c ∈ w2, isSpace c = true)
    (h3 : w3 ≠ [] ∧ ∀ c ∈ w3, isSpace c = true) (h4 : ∀ c ∈ w4, isSpace c = true)
    (ht : ∀ c ∈ t, isSpace c = false) :
    (t ≠ "Up".data → t ≠ "Down".data →
      FindStringSubmatch newIfRegexp (enumLine w1 "Link Status" w2 w3 t w4) = none
      ∧ FindStringSubmatch descRegexp (enumLine w1 "Link Status" w2 w3 t w4) = none
      ∧ FindStringSubmatch macRegexp (enumLine w1 "Link Status" w2 w3 t w4) = none
      ∧ FindStringSubmatch linkStatusRegexp (enumLine w1 "Link Status" w2 w3 t w4) = none
      ∧ FindStringSubmatch portEnabledRegexp (enumLine w1 "Link Status" w2 w3 t w4) = none
      ∧ FindStringSubmatch bytesRegexp (enumLine w1 "Link Status" w2 w3 t w4) = none
      ∧ FindStringSubmatch unicastRegexp (enumLine w1 "Link Status" w2 w3 t w4) = none)
    ∧ (t = "Up".data ∨ t = "Down".data →
      FindStringSubmatch newIfRegexp (enumLine w1 "Link Status" w2 w3 t w4) = none
      ∧ FindStringSubmatch descRegexp (enumLine w1 "Link Status" w2 w3 t w4) = none
      ∧ FindStringSubmatch macRegexp (enumLine w1 "Link Status" w2 w3 t w4) = none
      ∧ FindStringSubmatch linkStatusRegexp (enumLine w1 "Link Status" w2 w3 t w4)
          = some [enumLine w1 "Link Status" w2 w3 t w4, String.mk t])
    ∧ (t ≠ "Yes".data → t ≠ "No".data →
      FindStringSubmatch newIfRegexp (enumLine w1 "Port Enabled" w2 w3 t w4) = none
      ∧ FindStringSubmatch descRegexp (enumLine w1 "Port Enabled" w2 w3 t w4) = none
      ∧ FindStringSubmatch macRegexp (enumLine w1 "Port Enabled" w2 w3 t w4) = none
      ∧ FindStringSubmatch linkStatusRegexp (enumLine w1 "Port Enabled" w2 w3 t w4) = none
      ∧ FindStringSubmatch portEnabledRegexp (enumLine w1 "Port Enabled" w2 w3 t w4) = none
      ∧ FindStringSubmatch bytesRegexp (enumLine w1 "Port Enabled" w2 w3 t w4) = none
      ∧ FindStringSubmatch unicastRegexp (enumLine w1 "Port Enabled" w2 w3 t w4) = none)
    ∧ (t = "Yes".data ∨ t = "No".data →
      FindStringSubmatch newIfRegexp (enumLine w1 "Port Enabled" w2 w3 t w4) = none
      ∧ FindStringSubmatch descRegexp (enumLine w1 "Port Enabled" w2 w3 t w4) = none
      ∧ FindStringSubmatch macRegexp (enumLine w1 "Port Enabled" w2 w3 t w4) = none
      ∧ FindStringSubmatch linkStatusRegexp (enumLine w1 "Port Enabled" w2 w3 t w4) = none
      ∧ FindStringSubmatch portEnabledRegexp (enumLine w1 "Port Enabled" w2 w3 t w4)
          = some [enumLine w1 "Port Enabled" w2 w3 t w4, String.mk t])
    ∧ (∀ text : String, Parse im after im.ArubaSwitch text
        = Outcome.panics (panicMessage BandMcastPattern (invalidEscape 'T'))) := by
  obtain ⟨n1, n2, n3, n5, n6, n7⟩ := link_line_rules w1 w2 w3 w4 t h1.2 h2.2 h3.2 h4 ht
  obtain ⟨p1, p2, p3, p4, p6, p7⟩ := port_line_rules w1 w2 w3 w4 t h1.2 h2.2 h3.2 h4 ht
  refine ⟨?_, ?_, ?_, ?_, fun text => Parse_panics im after text⟩
  · intro ha hb
    exact ⟨n1, n2, n3,
      enum_no_match "Link Status" "Up" "Down" 'L' _ 'U' _ 'D' _ rfl rfl rfl (by decide)
        (by decide) (by decide) w1 w2 w3 w4 t h1.2 h2.2 h3.2 h4 ht ha hb, n5, n6, n7⟩
  · intro hab
    refine ⟨n1, n2, n3, ?_⟩
    obtain ⟨c1, v1, rfl⟩ := List.exists_cons_of_ne_nil h1.1
    obtain ⟨c2, v2, rfl⟩ := List.exists_cons_of_ne_nil h2.1
    obtain ⟨c3, v3, rfl⟩ := List.exists_cons_of_ne_nil h3.1
    exact enum_match "Link Status" "Up" "Down" 'L' _ 'U' _ 'D' _ rfl rfl rfl (by decide)
        (by decide) (by decide) c1 v1 c2 v2 c3 v3 w4 t h1.2 h2.2 h3.2 h4
        (by
          rcases hab with h | h
          · exact Or.inl h
          · exact Or.inr ⟨h, by simp [stripLit]⟩)
  · intro ha hb
    exact ⟨p1, p2, p3, p4,
      enum_no_match "Port Enabled" "Yes" "No" 'P' _ 'Y' _ 'N' _ rfl rfl rfl (by decide)
        (by decide) (by decide) w1 w2 w3 w4 t h1.2 h2.2 h3.2 h4 ht ha hb, p6, p7⟩
  · intro hab
    refine ⟨p1, p2, p3, p4, ?_⟩
    obtain ⟨c1, v1, rfl⟩ := List.exists_cons_of_ne_nil h1.1
    obtain ⟨c2, v2, rfl⟩ := List.exists_cons_of_ne_nil h2.1
    obtain ⟨c3, v3, rfl⟩ := List.exists_cons_of_ne_nil h3.1
    exact enum_match "Port Enabled" "Yes" "No" 'P' _ 'Y' _ 'N' _ rfl rfl rfl (by decide)
        (by decide) (by decide) c1 v1 c2 v2 c3 v3 w4 t h1.2 h2.2 h3.2 h4
        (by
          rcases hab with h | h
          · exact Or.inl h
          · exact Or.inr ⟨h, by simp [stripLit]⟩)

/-- C12, on the tokens "up" and "Up". -/
theorem enum_patterns_case_sensitive_witness :
    enumLine [' ', ' '] "Link Status" [' '] [' '] "up".data [] = "  Link Status : up"
    ∧ FindStringSubmatch linkStatusRegexp
        (enumLine [' ', ' '] "Link Status" [' '] [' '] "up".data []) = none
    ∧ FindStringSubmatch linkStatusRegexp
        (enumLine [' ', ' '] "Link Status" [' '] [' '] "Up".data [' '])
      = some [enumLine [' ', ' '] "Link Status" [' '] [' '] "Up".data [' '], String.mk "Up".data] :=
  ⟨by decide,
    ((enum_patterns_case_sensitive goImports (fun _ _ => Outcome.returns ([], none))
      [' ', ' '] [' '] [' '] [] "up".data
      (by decide) (by decide) (by decide) (by decide) (by decide)).1
        (by decide) (by decide)).2.2.2.1,
    ((enum_patterns_case_sensitive goImports (fun _ _ => Outcome.returns ([], none))
      [' ', ' '] [' '] [' '] [' '] "Up".data
      (by decide) (by decide) (by decide) (by decide) (by decide)).2.1 (by decide)).2.2.2⟩

/-- C14 (the code departs from the claim). In `ParseVlans`, for every boundary line `b`
and every input or output line `y` that reads 0 bytes, the result for the block `[b, y]`
differs from the result for the block `[b]` exactly when the conversion of "0" is not the
default of a counter field; with the counters of the data model, whose default is absent,
a counter read as 0 is distinguishable from one never read. `Parse` returns a record for
neither block: for the supported kind the call panics at line 29 on every text. -/
theorem zero_counter_differs_iff (im : Imports F)
    (after : Regexp → String → Outcome (List (Interface F) × Option String))
    (t1 t2 b y : String) (h1 : Split t1 = [b]) (h2 : Split t2 = [b, y])
    (hb : isVlanBoundary b = true)
    (hy : (vlanRule y = some VlanRule.inputBytes
          ∧ sub ((FindStringSubmatch inputBytesRegexp y).getD []) 1 = "0")
        ∨ (vlanRule y = some VlanRule.outputBytes
          ∧ sub ((FindStringSubmatch outputBytesRegexp y).getD []) 1 = "0")) :
    (ParseVlans im im.ArubaSwitch t2 ≠ ParseVlans im im.ArubaSwitch t1
        ↔ im.Str2float64 "0" ≠ 0)
    ∧ Parse im after im.ArubaSwitch t1
        = Outcome.panics (panicMessage BandMcastPattern (invalidEscape 'T'))
    ∧ Parse im after im.ArubaSwitch t2
        = Outcome.panics (panicMessage BandMcastPattern (invalidEscape 'T')) := by
  refine ⟨?_, Parse_panics im after t1, Parse_panics im after t2⟩
  have hyb : isVlanBoundary y = false := by
    cases hbx : isVlanBoundary y with
    | false => rfl
    | true =>
      rw [(vlanRule_boundary y).mpr hbx] at hy
      rcases hy with ⟨h, _⟩ | ⟨h, _⟩ <;> cases h
  have hne : ({ Name := vlanName b } : Interface F) ≠ {} :=
    named_ne_zero _ (vlanName_ne b hb)
  rw [ParseVlans_blocks im t1 (b, []) [] (by rw [h1]; rfl) (by simp [hb]),
    ParseVlans_blocks im t2 (b, [y]) [] (by rw [h2]; rfl) (by simp [hb, hyb])]
  simp only [List.map_cons, List.map_nil, List.foldl_cons, List.foldl_nil]
  rw [vlanUpdate_eq im _ y hne hyb]
  rcases hy with ⟨h, hv⟩ | ⟨h, hv⟩
  · rw [h]
    simp only [hv]
    constructor
    · intro hd h0
      apply hd
      rw [h0]
    · intro h0 he
      apply h0
      have := congrArg (fun p : List (Interface F) × Option String =>
        p.1.map (fun r => r.InputBytes)) he
      simpa using this
  · rw [h]
    simp only [hv]
    constructor
    · intro hd h0
      apply hd
      rw [h0]
    · intro h0 he
      apply h0
      have := congrArg (fun p : List (Interface F) × Option String =>
        p.1.map (fun r => r.OutputBytes)) he
      simpa using this

/-- C14, with the counters of the data model: a vlan block with an input line that reads
0 bytes gives another record than the boundary line alone. -/
theorem zero_counter_differs_iff_witness :
    specImports.Str2float64 "0" ≠ 0
      ∧ ParseVlans specImports specImports.ArubaSwitch
          "vlan10.1 (100)\n Total 5 packets, 0 bytes input"
        ≠ ParseVlans specImports specImports.ArubaSwitch "vlan10.1 (100)"
      ∧ ParseVlans specImports specImports.ArubaSwitch
          "vlan10.1 (100)\n Total 5 packets, 0 bytes input"
        = ([{ Name := "vlan10.1", InputBytes := Counter.value 0 }], none)
      ∧ ParseVlans specImports specImports.ArubaSwitch "vlan10.1 (100)"
        = ([{ Name := "vlan10.1", InputBytes := Counter.absent }], none) :=
  ⟨by decide,
    (zero_counter_differs_iff specImports (fun _ _ => Outcome.returns ([], none))
      "vlan10.1 (100)" "vlan10.1 (100)\n Total 5 packets, 0 bytes input"
      "vlan10.1 (100)" " Total 5 packets, 0 bytes input"
      (by decide) (by decide) (by decide) (Or.inl ⟨by decide, by decide⟩)).1.mpr (by decide),
    by decide, by decide⟩

/-- C15 (the code departs from the claim). `ParseVlans` distributes over the concatenation
of two texts of the supported kind that each start with a boundary line: the records for
`A`, a line break and `B` are the records for `A` followed by the records for `B`. `Parse`
returns records for none of the three texts: the call panics at line 29. -/
theorem vlan_parse_distributes (im : Imports F)
    (after : Regexp → String → Outcome (List (Interface F) × Option String))
    (A B a b : String) (as bs : List String)
    (hA : Split A = a :: as) (hB : Split B = b :: bs)
    (ha : isVlanBoundary a = true) (hb : isVlanBoundary b = true) :
    ParseVlans im im.ArubaSwitch (A ++ "\n" ++ B)
        = ((ParseVlans im im.ArubaSwitch A).1 ++ (ParseVlans im im.ArubaSwitch B).1, none)
    ∧ Parse im after im.ArubaSwitch A
        = Outcome.panics (panicMessage BandMcastPattern (invalidEscape 'T'))
    ∧ Parse im after im.ArubaSwitch B
        = Outcome.panics (panicMessage BandMcastPattern (invalidEscape 'T'))
    ∧ Parse im after im.ArubaSwitch (A ++ "\n" ++ B)
        = Outcome.panics (panicMessage BandMcastPattern (invalidEscape 'T')) := by
  refine ⟨?_, Parse_panics im after A, Parse_panics im after B, Parse_panics im after _⟩
  rw [ParseVlans_supported, ParseVlans_supported, ParseVlans_supported, Split_append, hA, hB]
  rw [fold_distrib {} isVlanBoundary (fun l => ({ Name := vlanName l } : Interface F))
    (vlanUpdate im) (fun r => r.Name ≠ "") (fun r h => ne_zero_of_name r h)
    (fun l hl => vlanName_ne l hl)
    (fun r l h => by
      show (vlanUpdate im r l).Name ≠ ""
      rw [vlanUpdate_name]
      exact h) a b as bs ha hb]

/-- C15, on two vlan blocks that carry the same name and different counters. -/
theorem vlan_parse_distributes_witness :
    ParseVlans goImports goImports.ArubaSwitch
        ("vlan10.1 (100)\n Total 5 packets, 1 bytes input" ++ "\n"
          ++ "vlan10.1 (100)\n Total 5 packets, 2 bytes output")
      = ([{ Name := "vlan10.1", InputBytes := 1 }, { Name := "vlan10.1", OutputBytes := 2 }],
          none) :=
  ((vlan_parse_distributes goImports (fun _ _ => Outcome.returns ([], none))
      "vlan10.1 (100)\n Total 5 packets, 1 bytes input"
      "vlan10.1 (100)\n Total 5 packets, 2 bytes output"
      "vlan10.1 (100)" "vlan10.1 (100)"
      [" Total 5 packets, 1 bytes input"] [" Total 5 packets, 2 bytes output"]
      (by decide) (by decide) (by decide) (by decide)).1).trans (by decide)

/-- C17 (the code departs from the claim). The pattern of line 29 reads `Bcast\/Mcast R\Tx`
where the bytes and unicast patterns read `Bytes Tx` and `Unicast Tx`. The syntax accepts
the escaped slash and rejects `\T`, so `regexp.Compile` fails, `regexp.MustCompile` panics,
and `Parse` panics for the supported kind on every text: a line
`Bcast/Mcast Rx : 5  Bcast/Mcast Tx : 7` inside the span of a record sets no counter, and
the call hands no record to its caller. -/
theorem bcast_mcast_pattern_panics {G : Type} [Zero G] (im : Imports G)
    (after : Regexp → String → Outcome (List (Interface G) × Option String)) :
    escapeLiteral '/' = some '/' ∧ escapeLiteral 'T' = none
    ∧ Compile BandMcastPattern = Except.error (invalidEscape 'T')
    ∧ BandMcastRegexp = Outcome.panics (panicMessage BandMcastPattern (invalidEscape 'T'))
    ∧ panicMessage BandMcastPattern (invalidEscape 'T')
        = "regexp: Compile(`" ++ BandMcastPattern.text
            ++ "`): error parsing regexp: invalid escape sequence: `\\T`"
    ∧ Parse im after im.ArubaSwitch
        ("  Status and Counters - Port Counters for port 1\n"
          ++ "  Bcast/Mcast Rx  : 5  Bcast/Mcast Tx  : 7")
      = Outcome.panics (panicMessage BandMcastPattern (invalidEscape 'T'))
    ∧ returned (Parse im after im.ArubaSwitch
        ("  Status and Counters - Port Counters for port 1\n"
          ++ "  Bcast/Mcast Rx  : 5  Bcast/Mcast Tx  : 7")) = []
    ∧ (∀ text : String, Parse im after im.ArubaSwitch text
        = Outcome.panics (panicMessage BandMcastPattern (invalidEscape 'T'))) :=
  ⟨escapeLiteral_slash, escapeLiteral_T, Compile_BandMcast, BandMcastRegexp_panics,
    by decide, Parse_panics im after _, Parse_returned im after _ _,
    fun text => Parse_panics im after text⟩

end Claims

end ArubaExporter
